import Mathlib

/-!
Verification of the BlackMagic task-orchestrator against its specification.

The Python sources are shallowly embedded: dictionaries become association
lists over `String` keys, the four-direction relation record becomes
`NodeRel`, fallible operations return `Except`, and the `threading.Lock`
discipline that decides two of the claims is made explicit in the
lock-aware variants (a non-reentrant lock acquired while already held by
the same thread blocks forever, modelled as `none`).
-/

namespace BlackMagic

/-- Python-style character prefix test (`str.startswith`). -/
def charsStartWith : List Char → List Char → Bool
  | _, [] => true
  | [], _ :: _ => false
  | c :: cs, p :: ps => c == p && charsStartWith cs ps

/-- Python-style substring test (`sub in s`). -/
def charsContains : List Char → List Char → Bool
  | [], p => p.isEmpty
  | c :: t, p => charsStartWith (c :: t) p || charsContains t p

/-- `sub in s` on strings, as Python evaluates it. -/
def pyContains (s sub : String) : Bool :=
  charsContains s.toList sub.toList

/-- `s.startswith(p)` on strings, as Python evaluates it. -/
def pyStartsWith (s p : String) : Bool :=
  charsStartWith s.toList p.toList

/-- `str.strip()` on a character list. -/
def stripChars (cs : List Char) : List Char :=
  ((cs.dropWhile Char.isWhitespace).reverse.dropWhile Char.isWhitespace).reverse

/-- `s.strip()` on strings. -/
def pyStrip (s : String) : String :=
  String.mk (stripChars s.toList)

/-- `len(s)` in characters, as Python counts it. -/
def pyLen (s : String) : Nat :=
  s.toList.length

/-- `s[n:]` on strings. -/
def pyDrop (n : Nat) (s : String) : String :=
  String.mk (s.toList.drop n)

/-- `s[:n]` on strings. -/
def pyTake (n : Nat) (s : String) : String :=
  String.mk (s.toList.take n)

/-- `s.split(chr(10))` on a character list. -/
def splitOnNl : List Char → List (List Char)
  | [] => [[]]
  | c :: t =>
    if c = '\n' then [] :: splitOnNl t
    else
      match splitOnNl t with
      | [] => [[c]]
      | h :: r => (c :: h) :: r

/-! ## Association lists (Python `dict` with string keys) -/

/-- Lookup in an association list, first binding wins (`d.get(k)`). -/
def alook {α : Type} : List (String × α) → String → Option α
  | [], _ => none
  | (k, v) :: t, q => if q = k then some v else alook t q

/-- Pointwise update of the value stored at a key; no-op when the key is
absent (used where the source updates an existing entry in place). -/
def updF {α : Type} : List (String × α) → String → (α → α) → List (String × α)
  | [], _, _ => []
  | (pk, pv) :: t, k, f =>
    if pk = k then (pk, f pv) :: updF t k f else (pk, pv) :: updF t k f

/-- Python `d[k] = v`: replace the binding if present, append otherwise. -/
def upsert {α : Type} (l : List (String × α)) (k : String) (v : α) :
    List (String × α) :=
  if (alook l k).isSome then updF l k (fun _ => v) else l ++ [(k, v)]

theorem updF_cons {α : Type} (pk : String) (pv : α) (t : List (String × α))
    (k : String) (f : α → α) :
    updF ((pk, pv) :: t) k f =
      if pk = k then (pk, f pv) :: updF t k f else (pk, pv) :: updF t k f := rfl

theorem alook_nil {α : Type} (q : String) : alook ([] : List (String × α)) q = none := rfl

theorem alook_cons {α : Type} (k : String) (v : α) (t : List (String × α)) (q : String) :
    alook ((k, v) :: t) q = if q = k then some v else alook t q := rfl

theorem alook_updF {α : Type} (l : List (String × α)) (k : String) (f : α → α)
    (q : String) :
    alook (updF l k f) q = if q = k then (alook l k).map f else alook l q := by
  induction l with
  | nil => simp [updF, alook]
  | cons p t ih =>
    obtain ⟨pk, pv⟩ := p
    rw [updF_cons]
    by_cases hpk : pk = k
    · subst hpk
      rw [if_pos rfl]
      by_cases hq : q = pk
      · subst hq
        simp [alook]
      · simp [alook, hq, ih]
    · rw [if_neg hpk]
      have hkp : ¬k = pk := fun h => hpk h.symm
      by_cases hq : q = pk
      · subst hq
        simp [alook, hpk, hkp]
      · simp [alook, hq, ih, hkp]

theorem alook_append {α : Type} (l₁ l₂ : List (String × α)) (q : String) :
    alook (l₁ ++ l₂) q = ((alook l₁ q).rec (alook l₂ q) fun v => some v) := by
  induction l₁ with
  | nil => simp [alook]
  | cons p t ih =>
    obtain ⟨pk, pv⟩ := p
    by_cases hq : q = pk <;> simp [alook, hq, ih]

theorem alook_upsert {α : Type} (l : List (String × α)) (k : String) (v : α)
    (q : String) :
    alook (upsert l k v) q = if q = k then some v else alook l q := by
  unfold upsert
  by_cases hk : (alook l k).isSome
  · rw [if_pos hk, alook_updF]
    by_cases hq : q = k
    · subst hq
      rcases h : alook l q with _ | w
      · rw [h] at hk; simp at hk
      · simp [h]
    · simp [hq]
  · rw [if_neg hk, alook_append]
    by_cases hq : q = k
    · subst hq
      rcases h : alook l q with _ | w
      · simp [alook]
      · rw [h] at hk; simp at hk
    · rcases h : alook l q with _ | w <;> simp [alook, hq, h]

theorem alook_mem {α : Type} {l : List (String × α)} {k : String} {v : α}
    (h : alook l k = some v) : (k, v) ∈ l := by
  induction l with
  | nil => simp [alook] at h
  | cons p t ih =>
    obtain ⟨pk, pv⟩ := p
    by_cases hq : k = pk
    · subst hq
      simp [alook] at h
      simp [h]
    · simp [alook, hq] at h
      exact List.mem_cons_of_mem _ (ih h)

/-! ## Directional graph (`graph_directions.py`) -/

/-- Four-direction navigation (`Direction` enum). -/
inductive Direction : Type
  | up
  | down
  | left
  | right
deriving DecidableEq, Repr

/-- `reverse_direction`: flip arrow direction for bidirectional edges. -/
def reverse_direction : Direction → Direction
  | .up => .down
  | .down => .up
  | .left => .right
  | .right => .left

/-- `direction.name`, used only in the conflict error message. -/
def Direction.name : Direction → String
  | .up => "UP"
  | .down => "DOWN"
  | .left => "LEFT"
  | .right => "RIGHT"

/-- The per-node direction table `{UP,DOWN,LEFT,RIGHT → node_id|None}`. -/
structure NodeRel where
  up : Option String
  down : Option String
  left : Option String
  right : Option String
deriving DecidableEq, Repr

/-- Row with all directions `None` (as `add_node` initializes it). -/
def NodeRel.empty : NodeRel := ⟨none, none, none, none⟩

/-- Read one direction slot. -/
def NodeRel.get (r : NodeRel) : Direction → Option String
  | .up => r.up
  | .down => r.down
  | .left => r.left
  | .right => r.right

/-- Write one direction slot. -/
def NodeRel.set (r : NodeRel) : Direction → Option String → NodeRel
  | .up, v => { r with up := v }
  | .down, v => { r with down := v }
  | .left, v => { r with left := v }
  | .right, v => { r with right := v }

theorem NodeRel.get_set (r : NodeRel) (d e : Direction) (v : Option String) :
    (r.set d v).get e = if e = d then v else r.get e := by
  cases d <;> cases e <;> simp [NodeRel.get, NodeRel.set]

/-- Node metadata as stored by `add_node(**metadata)`; every call site of
this repository passes exactly `abstract`, `description` and `status`. -/
structure Meta where
  abstract : String
  description : String
  status : String
deriving DecidableEq, Repr

/-- `DirectionalGraph`: `relations` maps node id to its direction table,
`nodes` maps node id to metadata.  The `threading.Lock` field is modelled
separately in the lock-aware variants below. -/
structure DGraph where
  relations : List (String × NodeRel)
  nodes : List (String × Meta)
deriving DecidableEq, Repr

/-- The empty graph (`DirectionalGraph.__init__`). -/
def DGraph.empty : DGraph := ⟨[], []⟩

/-- `add_node`: initialize all directions to `None` and store metadata. -/
def add_node (g : DGraph) (node_id : String) (m : Meta) : DGraph :=
  { relations := upsert g.relations node_id NodeRel.empty,
    nodes := upsert g.nodes node_id m }

/-- `get_neighbor`: `relations.get(node_id, {}).get(direction)`. -/
def get_neighbor (g : DGraph) (node_id : String) (d : Direction) : Option String :=
  (alook g.relations node_id).bind (fun r => r.get d)

/-- The conflict message raised by `add_edge` without `overwrite`. -/
def edgeConflictMsg (from_id : String) (d : Direction) (existing : Option String) : String :=
  "Edge " ++ from_id ++ " --" ++ d.name ++ "--> " ++ existing.getD "" ++
    " already exists. Use overwrite=True to replace."

/-- Write one direction slot of one node of the graph. -/
def setSlot (g : DGraph) (node_id : String) (d : Direction) (v : Option String) : DGraph :=
  { g with relations := updF g.relations node_id (fun r => r.set d v) }

/-- The write sequence of `add_edge` once all checks have passed: break the
old reverse edge if overwriting a different target, write the forward slot,
then write the reverse slot of the new target. -/
def edgeWrites (g : DGraph) (existing : Option String) (from_id : String)
    (d : Direction) (to_id : Option String) : DGraph :=
  let g1 :=
    match existing with
    | some c => if to_id ≠ some c then setSlot g c (reverse_direction d) none else g
    | none => g
  let g2 := setSlot g1 from_id d to_id
  match to_id with
  | some t => setSlot g2 t (reverse_direction d) (some from_id)
  | none => g2

/-- `add_edge`: bidirectional edge with automatic reverse linking; checks
node existence, refuses to overwrite a different existing edge unless
`overwrite`, then performs the `edgeWrites` sequence. -/
def add_edge (g : DGraph) (from_id : String) (d : Direction)
    (to_id : Option String) (overwrite : Bool) : Except String DGraph :=
  match alook g.relations from_id with
  | none => .error ("Node " ++ from_id ++ " does not exist")
  | some relFrom =>
    let toMissing : Bool :=
      match to_id with
      | some t => (alook g.relations t).isNone
      | none => false
    if toMissing then
      .error ("Node " ++ (to_id.getD "") ++ " does not exist")
    else
      let existing := relFrom.get d
      if existing.isSome && !overwrite && decide (to_id ≠ existing) then
        .error (edgeConflictMsg from_id d existing)
      else
        .ok (edgeWrites g existing from_id d to_id)

/-- `remove_edge`: break an edge and its reverse. -/
def remove_edge (g : DGraph) (from_id : String) (d : Direction) : Except String DGraph :=
  add_edge g from_id d none true

theorem get_neighbor_setSlot (g : DGraph) (n : String) (d : Direction)
    (v : Option String) (m : String) (e : Direction) :
    get_neighbor (setSlot g n d v) m e =
      if m = n ∧ e = d ∧ (alook g.relations n).isSome then v
      else get_neighbor g m e := by
  unfold get_neighbor setSlot
  simp only [alook_updF]
  by_cases hm : m = n
  · subst hm
    rcases h : alook g.relations m with _ | r
    · simp [h]
    · by_cases he : e = d
      · subst he
        simp [h, NodeRel.get_set]
      · simp [h, NodeRel.get_set, he]
  · simp [hm]

theorem relations_isSome_setSlot (g : DGraph) (n : String) (d : Direction)
    (v : Option String) (m : String) :
    (alook (setSlot g n d v).relations m).isSome = (alook g.relations m).isSome := by
  unfold setSlot
  simp only [alook_updF]
  by_cases hm : m = n
  · subst hm
    rcases h : alook g.relations m with _ | r <;> simp [h]
  · simp [hm]

theorem reverse_ne (d : Direction) : reverse_direction d ≠ d := by
  cases d <;> simp [reverse_direction]

/-- Decompose a successful `add_edge`: the source node exists, the target
(when given) exists, the conflict guard did not fire, and the result is the
`edgeWrites` sequence applied to the previous forward slot. -/
theorem add_edge_ok_elim {g g2 : DGraph} {A : String} {d : Direction}
    {to_id : Option String} {ov : Bool}
    (h : add_edge g A d to_id ov = .ok g2) :
    ∃ relFrom, alook g.relations A = some relFrom ∧
      (∀ t, to_id = some t → (alook g.relations t).isSome) ∧
      ((relFrom.get d).isSome && !ov && decide (to_id ≠ relFrom.get d)) = false ∧
      g2 = edgeWrites g (relFrom.get d) A d to_id := by
  unfold add_edge at h
  rcases hA : alook g.relations A with _ | relFrom
  · rw [hA] at h; exact absurd h (by simp)
  · rw [hA] at h
    simp only at h
    cases to_id with
    | none =>
      rw [if_neg (by simp : ¬((false : Bool) = true))] at h
      by_cases hconf :
          ((relFrom.get d).isSome && !ov &&
            decide ((none : Option String) ≠ relFrom.get d)) = true
      · rw [if_pos hconf] at h; exact absurd h (by simp)
      · rw [if_neg hconf] at h
        injection h with h2
        exact ⟨relFrom, rfl, by simp, Bool.eq_false_iff.mpr hconf, h2.symm⟩
    | some B =>
      rw [show (match some B with
            | some t => (alook g.relations t).isNone
            | none => false) = (alook g.relations B).isNone from rfl] at h
      rcases hb : alook g.relations B with _ | rb
      · rw [hb] at h
        rw [if_pos (by simp)] at h
        exact absurd h (by simp)
      · rw [hb] at h
        rw [if_neg (by simp)] at h
        by_cases hconf :
            ((relFrom.get d).isSome && !ov &&
              decide (some B ≠ relFrom.get d)) = true
        · rw [if_pos hconf] at h; exact absurd h (by simp)
        · rw [if_neg hconf] at h
          injection h with h2
          refine ⟨relFrom, rfl, ?_, Bool.eq_false_iff.mpr hconf, h2.symm⟩
          intro t ht
          rw [(Option.some_injective _ ht).symm, hb]
          simp

theorem alook_relations_setSlot (g : DGraph) (n : String) (d : Direction)
    (v : Option String) (m : String) :
    alook (setSlot g n d v).relations m =
      if m = n then (alook g.relations n).map (fun r => r.set d v)
      else alook g.relations m := by
  unfold setSlot
  simp [alook_updF]

/-- Slot-level description of the `edgeWrites` sequence, assuming the nodes
it touches exist in `relations`. -/
theorem get_neighbor_edgeWrites (g : DGraph) (existing : Option String)
    (A : String) (d : Direction) (to_id : Option String)
    (hA : (alook g.relations A).isSome)
    (hto : ∀ t, to_id = some t → (alook g.relations t).isSome)
    (hcl : ∀ c, existing = some c → (alook g.relations c).isSome)
    (n : String) (e : Direction) :
    get_neighbor (edgeWrites g existing A d to_id) n e =
      if some n = to_id ∧ e = reverse_direction d then some A
      else if n = A ∧ e = d then to_id
      else if some n = existing ∧ some n ≠ to_id ∧ e = reverse_direction d then none
      else get_neighbor g n e := by
  have hdr : d ≠ reverse_direction d := (reverse_ne d).symm
  unfold edgeWrites
  rcases existing with _ | C <;> rcases to_id with _ | B
  · by_cases hnA : n = A <;> by_cases hed : e = d <;>
      simp_all [get_neighbor_setSlot, relations_isSome_setSlot, alook_relations_setSlot, Option.isSome_iff_ne_none]
  · have hB : (alook g.relations B).isSome := hto B rfl
    by_cases hnA : n = A <;> by_cases hnB : n = B <;>
      by_cases hed : e = d <;> by_cases her : e = reverse_direction d <;>
      simp_all [get_neighbor_setSlot, relations_isSome_setSlot, alook_relations_setSlot, Option.isSome_iff_ne_none]
  · have hC : (alook g.relations C).isSome := hcl C rfl
    by_cases hnA : n = A <;> by_cases hnC : n = C <;>
      by_cases hed : e = d <;> by_cases her : e = reverse_direction d <;>
      simp_all [get_neighbor_setSlot, relations_isSome_setSlot, alook_relations_setSlot, Option.isSome_iff_ne_none]
  · have hB : (alook g.relations B).isSome := hto B rfl
    have hC : (alook g.relations C).isSome := hcl C rfl
    by_cases hBC : B = C
    · subst hBC
      by_cases hnA : n = A <;> by_cases hnB : n = B <;>
        by_cases hed : e = d <;> by_cases her : e = reverse_direction d <;>
        simp_all [get_neighbor_setSlot, relations_isSome_setSlot, alook_relations_setSlot, Option.isSome_iff_ne_none]
    · by_cases hnA : n = A <;> by_cases hnB : n = B <;> by_cases hnC : n = C <;>
        by_cases hed : e = d <;> by_cases her : e = reverse_direction d <;>
        simp_all [get_neighbor_setSlot, relations_isSome_setSlot, alook_relations_setSlot, Option.isSome_iff_ne_none]

/-! ## Traversals and subtree removal (`graph_directions.py`) -/

/-- `get_parent`: convenience for the UP neighbor. -/
def get_parent (g : DGraph) (node_id : String) : Option String :=
  get_neighbor g node_id Direction.up

/-- `traverse_direction`: follow one direction until `None`.  The Python
`while` loop is given fuel; every caller in this repository traverses
acyclic chains, which are shorter than the node count. -/
def traverseGo (g : DGraph) (d : Direction) : Nat → String → List String → List String
  | 0, _, path => path
  | fuel + 1, current, path =>
    match get_neighbor g current d with
    | none => path
    | some nxt => traverseGo g d fuel nxt (path ++ [nxt])

/-- Fuel that bounds any acyclic chain in `g`. -/
def chainFuel (g : DGraph) : Nat :=
  g.relations.length + 1

def traverse_direction (g : DGraph) (node_id : String) (d : Direction)
    (include_self : Bool) : List String :=
  traverseGo g d (chainFuel g) node_id (if include_self then [node_id] else [])

/-- `get_children`: DOWN then the RIGHT chain including self. -/
def get_children (g : DGraph) (node_id : String) : List String :=
  match get_neighbor g node_id Direction.down with
  | none => []
  | some first_child => traverse_direction g first_child Direction.right true

/-- `get_descendants`: iterative worklist over `get_children`.  Python pops
from the end of `to_visit`; the model pushes and pops at the head, which
visits the same set. -/
def descGo (g : DGraph) : Nat → List String → List String → List String
  | 0, _, acc => acc
  | _ + 1, [], acc => acc
  | fuel + 1, current :: rest, acc =>
    let children := get_children g current
    let fresh := children.filter (fun c => !acc.contains c)
    descGo g fuel (fresh ++ rest) (acc ++ fresh)

def get_descendants (g : DGraph) (node_id : String) : List String :=
  descGo g (chainFuel g * chainFuel g) [node_id] []

/-- `_unlink_from_siblings`: reconnect the sibling chain around a node and
clear its horizontal links. -/
def unlink_from_siblings (g : DGraph) (node_id : String) : Except String DGraph := do
  let l := get_neighbor g node_id Direction.left
  let r := get_neighbor g node_id Direction.right
  let g1 ←
    match l, r with
    | some lv, some _ => add_edge g lv Direction.right r true
    | some lv, none => remove_edge g lv Direction.right
    | none, some rv =>
      match get_parent g node_id with
      | some p => add_edge g p Direction.down (some rv) true
      | none => pure g
    | none, none => pure g
  pure (setSlot (setSlot g1 node_id Direction.left none) node_id Direction.right none)

/-- `remove_subtree`: gather the subtree, unsplice the root from its
siblings and parent, then delete every gathered id from both maps. -/
def remove_subtree (g : DGraph) (node_id : String) :
    Except String (List String × DGraph) := do
  let to_remove := node_id :: get_descendants g node_id
  let g1 ← unlink_from_siblings g node_id
  let g2 ←
    match get_parent g1 node_id with
    | some p => remove_edge g1 p Direction.down
    | none => pure g1
  pure (to_remove,
    { relations := g2.relations.filter (fun p => !to_remove.contains p.1),
      nodes := g2.nodes.filter (fun p => !to_remove.contains p.1) })

/-! ### Lock-aware variants

`DirectionalGraph.lock` is a non-reentrant `threading.Lock`.  Acquiring it
while the same thread already holds it blocks forever; `held` records
whether the current thread holds the lock and a blocked call is `none`. -/

/-- `get_neighbor` acquires the graph lock for its read. -/
def get_neighborL (g : DGraph) (held : Bool) (node_id : String) (d : Direction) :
    Option (Option String) :=
  if held then none else some (get_neighbor g node_id d)

def traverseGoL (g : DGraph) (held : Bool) (d : Direction) :
    Nat → String → List String → Option (List String)
  | 0, _, path => some path
  | fuel + 1, current, path =>
    (get_neighborL g held current d).bind fun step =>
      match step with
      | none => some path
      | some nxt => traverseGoL g held d fuel nxt (path ++ [nxt])

def traverse_directionL (g : DGraph) (held : Bool) (node_id : String)
    (d : Direction) (include_self : Bool) : Option (List String) :=
  traverseGoL g held d (chainFuel g) node_id (if include_self then [node_id] else [])

def get_childrenL (g : DGraph) (held : Bool) (node_id : String) :
    Option (List String) :=
  (get_neighborL g held node_id Direction.down).bind fun fc =>
    match fc with
    | none => some []
    | some first_child => traverse_directionL g held first_child Direction.right true

def descGoL (g : DGraph) (held : Bool) :
    Nat → List String → List String → Option (List String)
  | 0, _, acc => some acc
  | _ + 1, [], acc => some acc
  | fuel + 1, current :: rest, acc =>
    (get_childrenL g held current).bind fun children =>
      let fresh := children.filter (fun c => !acc.contains c)
      descGoL g held fuel (fresh ++ rest) (acc ++ fresh)

def get_descendantsL (g : DGraph) (held : Bool) (node_id : String) :
    Option (List String) :=
  descGoL g held (chainFuel g * chainFuel g) [node_id] []

/-- `remove_subtree` takes the graph lock and then calls `get_descendants`,
whose `get_neighbor` reads try to take the same non-reentrant lock. -/
def remove_subtreeL (g : DGraph) (node_id : String) :
    Option (List String × DGraph) :=
  (get_descendantsL g true node_id).bind fun desc =>
    let to_remove := node_id :: desc
    ((unlink_from_siblings g node_id).toOption.bind fun g1 =>
      (match get_parent g1 node_id with
        | some p => (remove_edge g1 p Direction.down).toOption
        | none => some g1).bind fun g2 =>
      some (to_remove,
        { relations := g2.relations.filter (fun p => !to_remove.contains p.1),
          nodes := g2.nodes.filter (fun p => !to_remove.contains p.1) }))

/-- Any call of `remove_subtree` deadlocks: the first `get_neighbor` inside
`get_descendants` blocks on the lock already held by `remove_subtree`. -/
theorem remove_subtreeL_deadlock (g : DGraph) (node_id : String) :
    remove_subtreeL g node_id = none := by
  unfold remove_subtreeL get_descendantsL
  have h1 : ∀ fuel cur rest acc, descGoL g true (fuel + 1) (cur :: rest) acc = none := by
    intro fuel cur rest acc
    unfold descGoL get_childrenL get_neighborL
    simp
  have hpos : 0 < chainFuel g * chainFuel g :=
    Nat.mul_pos (by unfold chainFuel; omega) (by unfold chainFuel; omega)
  rw [show chainFuel g * chainFuel g = (chainFuel g * chainFuel g - 1) + 1 from
    (Nat.succ_pred_eq_of_pos hpos).symm]
  rw [h1]
  rfl

/-! ## Task Relation Manager (`task_relation_manager.py`) -/

/-- `update_node_metadata(node_id, status=...)`: update the stored status
if the node is present, otherwise do nothing. -/
def update_node_metadata_status (g : DGraph) (node_id status : String) : DGraph :=
  { g with nodes := updF g.nodes node_id (fun m => { m with status := status }) }

/-- The file write at the end of `_draw_graph`.  The Mermaid text is built
by pure string concatenation that cannot fail; only the `open(...).write`
can raise, and the source wraps it in no handler, so a failed write
surfaces as the returned error. -/
def draw_graph (writeOk : Bool) : Except String Unit :=
  if writeOk then .ok () else .error "OSError: failed to write graph file"

/-- `TaskRelationManager.update_node_status`: update the metadata, then
render.  The second component is the exception escaping to the caller. -/
def trm_update_node_status (g : DGraph) (node_id status : String)
    (writeOk : Bool) : DGraph × Option String :=
  let g1 := update_node_metadata_status g node_id status
  match draw_graph writeOk with
  | .ok _ => (g1, none)
  | .error e => (g1, some e)

/-- The loop body of `add_sub_tasks`: ids are pre-assigned (the source
draws them from `generate_node_id`, which guarantees freshness), the
recorded list collects the `parent_id` stored on each child (set on the
pydantic model and repeated by `register_node`), the first child hangs by
DOWN from the parent and later children by RIGHT from the previous one. -/
def addSubGo (parent : String) :
    DGraph → List (String × Option String) → Option String →
    List (String × Meta) → Except String (DGraph × List (String × Option String))
  | g, recd, _, [] => .ok (g, recd)
  | g, recd, prev, (cid, m) :: rest =>
    let g1 := add_node g cid m
    let recd1 := recd ++ [(cid, some parent)]
    match prev with
    | none =>
      (add_edge g1 parent Direction.down (some cid) false).bind fun g2 =>
        addSubGo parent g2 recd1 (some cid) rest
    | some p =>
      (add_edge g1 p Direction.right (some cid) false).bind fun g2 =>
        addSubGo parent g2 recd1 (some cid) rest

/-- `add_sub_tasks(parent_node_id, sub_nodes)`. -/
def add_sub_tasks (g : DGraph) (parent : String) (subs : List (String × Meta)) :
    Except String (DGraph × List (String × Option String)) :=
  if (alook g.relations parent).isSome then addSubGo parent g [] none subs
  else .error ("Parent node " ++ parent ++ " not found")

/-! ## Task Manager slice for `restart_node` (`task_manager.py`) -/

/-- One record of the manager's authoritative `nodes` map. -/
structure TMNode where
  taskId : String
  parentId : Option String
  status : String
  cancelled : Bool
  abstract : String
deriving DecidableEq, Repr

/-- The manager state `restart_node` touches: the `nodes` map and the
per-task TRM graphs (loggers and task records are not read on this path). -/
structure TMState where
  nodes : List (String × TMNode)
  trms : List (String × DGraph)
deriving DecidableEq, Repr

/-- `restart_node(node_id, comments)`, lock-elided functional semantics.
Returns the final state together with the outcome: `.ok none` models the
Python `return None`, `.ok (some id)` the returned new id, and `.error`
the `ValueError` escaping from `add_edge`.  `register_node` is inlined:
it inserts the node record and syncs `pending` to the TRM (a metadata
no-op, since the new id is not yet in the graph); its logger side effects
are not modelled. -/
def restart_node (st : TMState) (node_id new_node_id comments : String) :
    TMState × Except String (Option String) :=
  match alook st.nodes node_id with
  | none => (st, .ok none)
  | some nd =>
    match alook st.trms nd.taskId with
    | none => (st, .ok none)
    | some g0 =>
      let newAbstract :=
        if comments ≠ "" then nd.abstract ++ " [Improved: " ++ pyTake 50 comments ++ "]"
        else nd.abstract
      let nodes1 := upsert st.nodes new_node_id
        ⟨nd.taskId, nd.parentId, "pending", false, newAbstract⟩
      let g1 := update_node_metadata_status g0 new_node_id "pending"
      let g2 := add_node g1 new_node_id
        ⟨newAbstract, (if comments ≠ "" then comments else "Restarted node"), "pending"⟩
      match add_edge g2 node_id Direction.right (some new_node_id) false with
      | .ok g3 =>
        ({ nodes := nodes1, trms := updF st.trms nd.taskId (fun _ => g3) },
          .ok (some new_node_id))
      | .error e =>
        ({ nodes := nodes1, trms := updF st.trms nd.taskId (fun _ => g2) },
          .error e)

/-! ### Lock-aware `restart_node`

`restart_node` takes `self.trms_lock` after the initial `nodes` read and
holds it for the whole remainder.  `register_node` ends by calling
`_sync_status_to_trm`, which acquires `self.trms_lock` again; the lock is
a non-reentrant `threading.Lock`, so the call blocks forever (`none`). -/

/-- `_sync_status_to_trm`, with the `trms_lock` acquisition explicit. -/
def sync_status_to_trmL (st : TMState) (trmsHeld : Bool) (node_id status : String) :
    Option TMState :=
  match alook st.nodes node_id with
  | none => some st
  | some nd =>
    if trmsHeld then none
    else
      some (match alook st.trms nd.taskId with
        | none => st
        | some _ =>
          let trms2 := updF st.trms nd.taskId
            (fun g => update_node_metadata_status g node_id status)
          { st with trms := trms2 })

/-- `register_node`, with the `trms_lock` state threaded through. -/
def register_nodeL (st : TMState) (trmsHeld : Bool) (taskId node_id abstract : String)
    (parentId : Option String) : Option TMState :=
  let nodes1 := upsert st.nodes node_id ⟨taskId, parentId, "pending", false, abstract⟩
  sync_status_to_trmL { st with nodes := nodes1 } trmsHeld node_id "pending"

/-- `restart_node` with the lock discipline of the source. -/
def restart_nodeL (st : TMState) (node_id new_node_id comments : String) :
    Option (TMState × Except String (Option String)) :=
  match alook st.nodes node_id with
  | none => some (st, .ok none)
  | some nd =>
    match alook st.trms nd.taskId with
    | none => some (st, .ok none)
    | some _ =>
      let newAbstract :=
        if comments ≠ "" then nd.abstract ++ " [Improved: " ++ pyTake 50 comments ++ "]"
        else nd.abstract
      (register_nodeL st true nd.taskId new_node_id newAbstract nd.parentId).bind
        fun st1 =>
          match alook st1.trms nd.taskId with
          | none => some (st1, .ok none)
          | some gb =>
            let g2 := add_node (update_node_metadata_status gb new_node_id "pending")
              new_node_id
              ⟨newAbstract, (if comments ≠ "" then comments else "Restarted node"),
                "pending"⟩
            match add_edge g2 node_id Direction.right (some new_node_id) false with
            | .ok g3 =>
              some ({ nodes := st1.nodes, trms := updF st1.trms nd.taskId (fun _ => g3) },
                .ok (some new_node_id))
            | .error e =>
              some ({ nodes := st1.nodes, trms := updF st1.trms nd.taskId (fun _ => g2) },
                .error e)

/-! ## Executor Loop (`mcp_agent.py`, `MCPAgent.execute_task`) -/

/-- `_is_comment_only`: every line of the stripped command is blank or a
`#` comment after stripping. -/
def is_comment_only (cmd : String) : Bool :=
  (splitOnNl cmd.toList).all (fun l =>
    let t := stripChars l
    t.isEmpty || charsStartWith t ['#'])

/-- The completion footer appended when a command starts with DONE:. -/
def doneMsg (cmd : String) : String :=
  "\n=== TASK COMPLETED ===\n" ++ pyStrip (pyDrop 5 cmd) ++ "\n"

/-- The SYSTEM nudge answered to a comment-only command. -/
def commentFeedback : String :=
  "[SYSTEM] Your last output was only a comment. Please provide an actual command to execute, or respond with DONE: reason if the task cannot be completed."

/-- Transcript line recorded for a comment-only command. -/
def commentFeedbackLine (cmd : String) : String :=
  "$ " ++ cmd ++ "\n" ++ commentFeedback ++ "\n"

/-- The stuck-loop footer after `comment_threshold` comment-only replies. -/
def stuckCommentMsg (commentTh : Nat) : String :=
  "\n[SYSTEM] Task terminated - stuck in comment-only loop after " ++
    toString commentTh ++ " attempts.\n"

/-- Transcript line for an executed command and its output. -/
def termOut (cmd output : String) : String :=
  "$ " ++ cmd ++ "\n" ++ output ++ "\n"

/-- The nudge injected after `empty_threshold` consecutive short outputs. -/
def emptyNudge (emptyTh : Nat) : String :=
  "\n[SYSTEM] Task appears stuck - no meaningful output after " ++
    toString emptyTh ++ " iterations. If you cannot make progress, respond with DONE: Unable to complete - reason.\n"

/-- The footer appended when the final `iteration` check fires. -/
def iterLimitMsg (maxIter : Nat) : String :=
  "\n[SYSTEM] Reached maximum iteration limit (" ++ toString maxIter ++
    "). Task incomplete.\n"

/-- How a run of the `for iteration in range(max_iterations)` loop ended:
a DONE: command, the comment-loop kill-switch, range exhaustion — or, only
for the spec-reference loop below, a cancellation stop. -/
inductive ExitKind
  | doneExit
  | commentExit
  | exhausted
  | cancelledStop
deriving DecidableEq, Repr

/-- Loop result: the accumulated `all_output`, the Python value of
`iteration` at loop exit, and how the loop ended. -/
structure LoopOut where
  out : List String
  lastIter : Nat
  exitKind : ExitKind
deriving DecidableEq, Repr

/-- The loop body of `execute_task`.  `cmds i` is the assistant message of
iteration `i` (the LLM oracle), `outs i` the container output for it;
`fuel` is the number of remaining iterations, `i` the current index, `acc`
the accumulated `all_output`, `ec`/`cc` the consecutive empty-output and
comment-only counters. -/
def mcpLoop (cmds outs : Nat → String) (emptyTh commentTh : Nat) :
    Nat → Nat → List String → Nat → Nat → LoopOut
  | 0, i, acc, _, _ => ⟨acc, i - 1, .exhausted⟩
  | fuel + 1, i, acc, ec, cc =>
    let cmd := cmds i
    if pyStartsWith cmd "DONE:" then
      ⟨acc ++ [doneMsg cmd], i, .doneExit⟩
    else if is_comment_only cmd then
      let cc1 := cc + 1
      if commentTh ≤ cc1 then
        ⟨acc ++ [stuckCommentMsg commentTh], i, .commentExit⟩
      else
        mcpLoop cmds outs emptyTh commentTh fuel (i + 1)
          (acc ++ [commentFeedbackLine cmd]) ec cc1
    else
      let output := outs i
      let acc1 := acc ++ [termOut cmd output]
      let ec1 := if pyLen (pyStrip output) < 10 then ec + 1 else 0
      if emptyTh ≤ ec1 then
        mcpLoop cmds outs emptyTh commentTh fuel (i + 1) (acc1 ++ [emptyNudge emptyTh]) 0 0
      else
        mcpLoop cmds outs emptyTh commentTh fuel (i + 1) acc1 ec1 0

/-- Result of `execute_task`: the final `all_output`, the joined
transcript, and whether the trailing `iteration >= max_iterations - 1`
check fired (the only place `mcp_iteration_limits` is incremented). -/
structure MCPResult where
  output : List String
  transcript : String
  lastIter : Nat
  exitKind : ExitKind
  iterLimitHit : Bool
deriving DecidableEq, Repr

/-- `MCPAgent.execute_task`.  With `max_iterations = 0` the loop body
never runs and the final read of `iteration` raises `NameError` (`none`).
Otherwise the loop runs, and the footer plus metric fire exactly when the
exit value of `iteration` reaches `max_iterations - 1`. -/
def execute_task (cmds outs : Nat → String) (maxIter emptyTh commentTh : Nat) :
    Option MCPResult :=
  if maxIter = 0 then none
  else
    let L := mcpLoop cmds outs emptyTh commentTh maxIter 0 [] 0 0
    let hit := decide (maxIter - 1 ≤ L.lastIter)
    let out := if hit then L.out ++ [iterLimitMsg maxIter] else L.out
    some ⟨out, String.intercalate "\n" out, L.lastIter, L.exitKind, hit⟩

/-- Reference loop following the words of the spec (§5, cancellation
semantics): identical to `mcpLoop` except that the cancelled flag is
verified at the start of each iteration and stops the loop at once.  The
source loop in `MCPAgent.execute_task` performs no such check. -/
def mcpLoopSpecCancel (cancelledAt : Nat → Bool) (cmds outs : Nat → String)
    (emptyTh commentTh : Nat) : Nat → Nat → List String → Nat → Nat → LoopOut
  | 0, i, acc, _, _ => ⟨acc, i - 1, .exhausted⟩
  | fuel + 1, i, acc, ec, cc =>
    if cancelledAt i then ⟨acc, i, .cancelledStop⟩
    else
      let cmd := cmds i
      if pyStartsWith cmd "DONE:" then
        ⟨acc ++ [doneMsg cmd], i, .doneExit⟩
      else if is_comment_only cmd then
        let cc1 := cc + 1
        if commentTh ≤ cc1 then
          ⟨acc ++ [stuckCommentMsg commentTh], i, .commentExit⟩
        else
          mcpLoopSpecCancel cancelledAt cmds outs emptyTh commentTh fuel (i + 1)
            (acc ++ [commentFeedbackLine cmd]) ec cc1
      else
        let output := outs i
        let acc1 := acc ++ [termOut cmd output]
        let ec1 := if pyLen (pyStrip output) < 10 then ec + 1 else 0
        if emptyTh ≤ ec1 then
          mcpLoopSpecCancel cancelledAt cmds outs emptyTh commentTh fuel (i + 1)
            (acc1 ++ [emptyNudge emptyTh]) 0 0
        else
          mcpLoopSpecCancel cancelledAt cmds outs emptyTh commentTh fuel (i + 1) acc1 ec1 0

/-! ## Task Node cancellation check-points (`task_node.py`) -/

/-- The two exception kinds that matter on this path. -/
inductive TaskErr
  | needTurning (msg : String)
  | impossible (msg : String)
deriving DecidableEq, Repr

/-- The attempt loop of `direct_execute` (attempts 1, 2, 3): re-check the
cancelled flag at the entry of every attempt, run the Executor Loop (its
transcript is the oracle `raw`), trust a transcript containing DONE:,
otherwise ask the critic oracle; a verification failure retries, and after
the third attempt raises impossible. -/
def directExecuteGo (cancelledAt : Nat → Bool) (raw : Nat → String)
    (criteriaMet : Nat → Bool) : Nat → Nat → Except TaskErr Unit
  | 0, _ => .error (.impossible "Exhausted attempts")
  | fuel + 1, attempt =>
    if cancelledAt attempt then .error (.impossible "Cancelled")
    else if pyContains (raw attempt) "DONE:" then .ok ()
    else if criteriaMet attempt then .ok ()
    else if attempt < 3 then directExecuteGo cancelledAt raw criteriaMet fuel (attempt + 1)
    else .error (.impossible ("Failed after 3 attempts: Verification failed (attempt " ++
      toString attempt ++ ")"))

/-- `TaskNode.direct_execute`. -/
def direct_execute (cancelledAt : Nat → Bool) (raw : Nat → String)
    (criteriaMet : Nat → Bool) : Except TaskErr Unit :=
  directExecuteGo cancelledAt raw criteriaMet 3 1

/-- The dispatch skeleton of `TaskNode.execute`: the entry cancellation
check raising impossible, then branching vs direct execution on the size
of the planner result; the two continuations are oracles. -/
def executeModel (cancelled : Bool) (planTasks : Nat)
    (branchResult directResult : Except TaskErr String) : Except TaskErr String :=
  if cancelled then .error (.impossible "Node was cancelled")
  else if 1 < planTasks then branchResult
  else directResult

/-! ## LLM gateway synchronization traces (`task_node.py`, `mcp_agent.py`) -/

/-- Synchronization-relevant events an LLM call path performs. -/
inductive LLMEvent
  | acquire
  | post
  | sleepFor (n : Nat)
  | release
deriving DecidableEq, Repr

/-- Outcome of one HTTP attempt. -/
inductive CallOutcome
  | success
  | rateLimited
  | transientErr
  | httpErr
deriving DecidableEq, Repr

/-- Events of the shared retry loop (`for attempt in range(max_retries)`):
post, then on a 429 or a transient network error sleep
`base_delay * 2 ** attempt` and retry while attempts remain; a non-429
HTTP error or exhausted retries raises. -/
def llmAttemptEvents (oc : Nat → CallOutcome) (maxRetries baseDelay : Nat) :
    Nat → Nat → List LLMEvent
  | 0, _ => []
  | fuel + 1, attempt =>
    LLMEvent.post ::
      (match oc attempt with
       | .success => []
       | .httpErr => []
       | .rateLimited =>
         if attempt + 1 < maxRetries then
           LLMEvent.sleepFor (baseDelay * 2 ^ attempt) ::
             llmAttemptEvents oc maxRetries baseDelay fuel (attempt + 1)
         else []
       | .transientErr =>
         if attempt + 1 < maxRetries then
           LLMEvent.sleepFor (baseDelay * 2 ^ attempt) ::
             llmAttemptEvents oc maxRetries baseDelay fuel (attempt + 1)
         else [])

/-- `TaskNode._call_llm`: the whole retry loop runs inside
`with self._llm_semaphore:`, released also on exceptional exit. -/
def call_llm_trace (oc : Nat → CallOutcome) (maxRetries baseDelay : Nat) :
    List LLMEvent :=
  LLMEvent.acquire ::
    (llmAttemptEvents oc maxRetries baseDelay maxRetries 0 ++ [LLMEvent.release])

/-- `MCPAgent._llm_next_command`: the same retry loop, not guarded by any
semaphore. -/
def llm_next_command_trace (oc : Nat → CallOutcome) (maxRetries baseDelay : Nat) :
    List LLMEvent :=
  llmAttemptEvents oc maxRetries baseDelay maxRetries 0

/-- Check that every `post` in a trace happens while at least one acquire
is outstanding. -/
def postsGuarded : List LLMEvent → Nat → Bool
  | [], _ => true
  | LLMEvent.acquire :: t, d => postsGuarded t (d + 1)
  | LLMEvent.release :: t, d => postsGuarded t (d - 1)
  | LLMEvent.post :: t, d => decide (0 < d) && postsGuarded t d
  | LLMEvent.sleepFor _ :: t, d => postsGuarded t d

/-! ## Status reconciliation tick (`app.py`, `reconcile_node_status`) -/

/-- One record of the manager's authoritative `nodes` map as the
reconcile loop reads it. -/
structure MNode where
  taskId : String
  status : String
  completedAt : Bool
deriving DecidableEq, Repr

/-- The state a reconcile tick reads and writes: the `nodes` map, the
per-task TRM status metadata and the per-node log contents. -/
structure RState where
  nodes : List (String × MNode)
  trms : List (String × List (String × String))
  logs : List (String × String)
deriving DecidableEq, Repr

/-- The terminal statuses the tick skips. -/
def terminalStatuses : List String := ["completed", "failed", "cancelled", "impossible"]

/-- `TRM.update_node_status` as the tick sees it: set the status metadata
when the node is known to the graph (the diagram rewrite is a disk
side effect). -/
def trmSetStatus (t : List (String × String)) (nid status : String) :
    List (String × String) :=
  updF t nid (fun _ => status)

/-- One node of the tick body: skip terminal nodes, read the node log via
`get_node_log` (absent logger gives `None`), and on a truthy log that
contains DONE: mark the node completed, stamp the completion time, and
sync the completed status to the task TRM. -/
def reconcileStep (st : RState) (nid : String) (nd : MNode) : RState :=
  if terminalStatuses.contains nd.status then st
  else
    match alook st.logs nid with
    | none => st
    | some content =>
      if content.isEmpty then st
      else if pyContains content "DONE:" then
        let nodes1 := updF st.nodes nid
          (fun m => { m with status := "completed", completedAt := true })
        let trms1 :=
          match alook st.trms nd.taskId with
          | some _ => updF st.trms nd.taskId (fun t => trmSetStatus t nid "completed")
          | none => st.trms
        ⟨nodes1, trms1, st.logs⟩
      else st

/-- One full reconcile tick: iterate the snapshot
`list(task_manager.nodes.items())` taken at tick start. -/
def reconcileTick (st : RState) : RState :=
  st.nodes.foldl (fun s p => reconcileStep s p.1 p.2) st

/-! ## Result aggregation (`task_node.py`) -/

/-- The slice of `TaskModelOut` that aggregation reads and writes. -/
structure TaskOut where
  result : Option String
  status : String
deriving DecidableEq, Repr

/-- `summaries = [r.result for r in results if r.result]`: keep the
results that are present and non-empty (Python truthiness). -/
def aggSummaries (results : List TaskOut) : List String :=
  results.filterMap (fun r =>
    match r.result with
    | some s => if s.isEmpty then none else some s
    | none => none)

/-- Join the summaries with positional labels, exactly as the source
enumerates whatever list it is handed. -/
def combineSummaries (ss : List String) : String :=
  String.intercalate "\n\n"
    (ss.enum.map (fun p => "Sub-task " ++ toString (p.1 + 1) ++ ": " ++ p.2))

/-- `TaskNode._aggregate_results`. -/
def aggregate_results (results : List TaskOut) : Except String TaskOut :=
  match results with
  | [] => .error "No results to aggregate"
  | [r] => .ok r
  | _ => .ok ⟨some (combineSummaries (aggSummaries results)), "completed"⟩

/-- `_execute_parallel_staggered` appends `future.result()` values in
`as_completed` order: `order` lists the positions of the plan-ordered
children in the order their workers completed. -/
def collectCompleted (results : List TaskOut) (order : List Nat) : List TaskOut :=
  order.filterMap (fun i => results[i]?)

/-- Reference following the words of the spec: aggregate with the child
summaries taken in sub-task index order (the plan order), one child passed
through. -/
def specAggregateByIndex (results : List TaskOut) : Except String TaskOut :=
  match results with
  | [] => .error "No results to aggregate"
  | [r] => .ok r
  | _ => .ok ⟨some (combineSummaries (aggSummaries results)), "completed"⟩

/-! ## Graph invariants -/

theorem reverse_reverse (d : Direction) :
    reverse_direction (reverse_direction d) = d := by
  cases d <;> rfl

theorem reverse_inj {d e : Direction}
    (h : reverse_direction d = reverse_direction e) : d = e := by
  cases d <;> cases e <;> simp_all [reverse_direction]

/-- Every stored edge is mirrored: if `N.D = M` then `M.reverse(D) = N`. -/
def Bidir (g : DGraph) : Prop :=
  ∀ n d m, get_neighbor g n d = some m →
    get_neighbor g m (reverse_direction d) = some n

/-- Every stored edge points at an existing node. -/
def ClosedG (g : DGraph) : Prop :=
  ∀ n d m, get_neighbor g n d = some m → (alook g.relations m).isSome

def dirList : List Direction := [.up, .down, .left, .right]

/-- Executable check for `Bidir` over the finitely many stored rows. -/
def bidirB (g : DGraph) : Bool :=
  g.relations.all (fun p => dirList.all (fun d =>
    match p.2.get d with
    | none => true
    | some m => get_neighbor g m (reverse_direction d) == some p.1))

/-- Executable check for `ClosedG`. -/
def closedB (g : DGraph) : Bool :=
  g.relations.all (fun p => dirList.all (fun d =>
    match p.2.get d with
    | none => true
    | some m => (alook g.relations m).isSome))

theorem mem_dirList (d : Direction) : d ∈ dirList := by
  cases d <;> simp [dirList]

theorem get_neighbor_eq_row {g : DGraph} {n : String} {r : NodeRel}
    (h : alook g.relations n = some r) (d : Direction) :
    get_neighbor g n d = r.get d := by
  unfold get_neighbor
  rw [h]
  rfl

theorem bidir_of_bidirB {g : DGraph} (h : bidirB g = true) : Bidir g := by
  intro n d m hnm
  rcases ha : alook g.relations n with _ | r
  · unfold get_neighbor at hnm
    rw [ha] at hnm
    simp at hnm
  · have hrow : r.get d = some m := by
      rw [← get_neighbor_eq_row ha d]
      exact hnm
    unfold bidirB at h
    rw [List.all_eq_true] at h
    have h2 := h (n, r) (alook_mem ha)
    rw [List.all_eq_true] at h2
    have h3 := h2 d (mem_dirList d)
    simp only [hrow] at h3
    exact eq_of_beq h3

theorem closed_of_closedB {g : DGraph} (h : closedB g = true) : ClosedG g := by
  intro n d m hnm
  rcases ha : alook g.relations n with _ | r
  · unfold get_neighbor at hnm
    rw [ha] at hnm
    simp at hnm
  · have hrow : r.get d = some m := by
      rw [← get_neighbor_eq_row ha d]
      exact hnm
    unfold closedB at h
    rw [List.all_eq_true] at h
    have h2 := h (n, r) (alook_mem ha)
    rw [List.all_eq_true] at h2
    have h3 := h2 d (mem_dirList d)
    simp only [hrow] at h3
    exact h3

/-- Decidable equality for `Except`, for concrete evaluations. -/
instance {e a : Type} [DecidableEq e] [DecidableEq a] :
    DecidableEq (Except e a) := fun x y =>
  match x, y with
  | .ok u, .ok v =>
    if h : u = v then isTrue (by rw [h]) else isFalse (by simp [h])
  | .error u, .error v =>
    if h : u = v then isTrue (by rw [h]) else isFalse (by simp [h])
  | .ok _, .error _ => isFalse (by simp)
  | .error _, .ok _ => isFalse (by simp)

/-! ## Claim C1 -/

/-- C1 (counterexample).  The bidirectional invariant is not maintained by
`add_edge`: starting from three fresh nodes, `add_edge("X", DOWN, "B")`
followed by `add_edge("A", DOWN, "B")` both succeed (A.DOWN was empty, so
no conflict), yet afterwards X.DOWN = B while B.UP = A ≠ X — the old
forward edge from X is left dangling because `add_edge` only clears the
reverse slot of its own previous target, never the previous reverse
neighbor of the new target. -/
theorem c1_bidirectional_invariant_counterexample :
    (Except.map (fun g2 =>
        (get_neighbor g2 "X" Direction.down, get_neighbor g2 "B" Direction.up))
      (Except.bind
        (add_edge (add_node (add_node (add_node DGraph.empty
            "A" ⟨"a", "", "pending"⟩) "X" ⟨"x", "", "pending"⟩)
            "B" ⟨"b", "", "pending"⟩)
          "X" Direction.down (some "B") false)
        (fun g1 => add_edge g1 "A" Direction.down (some "B") false)) =
      .ok (some "B", some "A")) ∧ ("A" : String) ≠ "X" := by
  constructor
  · decide
  · decide

/-- Neighbor-level description of a successful `add_edge g A d (some B)`:
the installed forward and reverse slots, the cleared reverse slot of the
previous target, everything else unchanged.  `hwf` demands that the
previous target, if any, is a real node (in Python a dangling previous
target would raise `KeyError` instead). -/
theorem add_edge_some_get_neighbor {g g2 : DGraph} {A B : String}
    {d : Direction} {ov : Bool}
    (hok : add_edge g A d (some B) ov = .ok g2)
    (hwf : ∀ C, get_neighbor g A d = some C → (alook g.relations C).isSome)
    (n : String) (e : Direction) :
    get_neighbor g2 n e =
      if some n = some B ∧ e = reverse_direction d then some A
      else if n = A ∧ e = d then some B
      else if some n = get_neighbor g A d ∧ some n ≠ some B ∧
          e = reverse_direction d then none
      else get_neighbor g n e := by
  obtain ⟨relFrom, hA, hto, _, hg2⟩ := add_edge_ok_elim hok
  have hX : get_neighbor g A d = relFrom.get d := get_neighbor_eq_row hA d
  subst hg2
  rw [get_neighbor_edgeWrites g (relFrom.get d) A d (some B)
    (by rw [hA]; simp)
    (by intro t ht; exact hto t ht)
    (by intro c hc; exact hwf c (by rw [hX]; exact hc)) n e, hX]

/-- C1 (amended).  `add_edge(A, D, B)` installs A.D = B and B.reverse(D) =
A; when it overwrites an existing different edge A.D = C it also clears
C.reverse(D); an existing different edge without overwrite is exactly the
conflict error; and the bidirectional invariant is preserved provided the
new target B had no reverse(D) neighbor other than A — without that
proviso the invariant can break (see the counterexample). -/
theorem c1_add_edge_bidirectional_semantics :
    (∀ g g2 A B d ov, add_edge g A d (some B) ov = .ok g2 →
      (∀ C, get_neighbor g A d = some C → (alook g.relations C).isSome) →
      get_neighbor g2 A d = some B ∧
        get_neighbor g2 B (reverse_direction d) = some A) ∧
    (∀ g g2 A B C d ov, add_edge g A d (some B) ov = .ok g2 →
      get_neighbor g A d = some C → C ≠ B → (alook g.relations C).isSome →
      get_neighbor g2 C (reverse_direction d) = none) ∧
    (∀ g A B C d, get_neighbor g A d = some C → C ≠ B →
      (alook g.relations B).isSome →
      add_edge g A d (some B) false = .error (edgeConflictMsg A d (some C))) ∧
    (∀ g g2 A B d ov, Bidir g → ClosedG g →
      add_edge g A d (some B) ov = .ok g2 →
      (get_neighbor g B (reverse_direction d) = none ∨
        get_neighbor g B (reverse_direction d) = some A) →
      Bidir g2) := by
  have hchar : ∀ (g g2 : DGraph) (A B : String) (d : Direction) (ov : Bool),
      add_edge g A d (some B) ov = .ok g2 →
      (∀ C, get_neighbor g A d = some C → (alook g.relations C).isSome) →
      ∀ n e, get_neighbor g2 n e =
        if some n = some B ∧ e = reverse_direction d then some A
        else if n = A ∧ e = d then some B
        else if some n = get_neighbor g A d ∧ some n ≠ some B ∧
            e = reverse_direction d then none
        else get_neighbor g n e :=
    fun _ _ _ _ _ _ hok hwf n e => add_edge_some_get_neighbor hok hwf n e
  refine ⟨?_, ?_, ?_, ?_⟩
  · intro g g2 A B d ov hok hwf
    constructor
    · rw [hchar g g2 A B d ov hok hwf A d]
      have h1 : ¬((some A = some B : Prop) ∧ d = reverse_direction d) := by
        intro hc
        exact reverse_ne d hc.2.symm
      rw [if_neg h1, if_pos ⟨rfl, rfl⟩]
    · rw [hchar g g2 A B d ov hok hwf B (reverse_direction d)]
      rw [if_pos ⟨rfl, rfl⟩]
  · intro g g2 A B C d ov hok hC hCB _
    have hwf : ∀ X, get_neighbor g A d = some X → (alook g.relations X).isSome := by
      intro X hXg
      rw [hC] at hXg
      rw [← Option.some_injective _ hXg]
      assumption
    rw [hchar g g2 A B d ov hok hwf C (reverse_direction d)]
    have h1 : ¬((some C = some B : Prop) ∧
        reverse_direction d = reverse_direction d) := by
      intro hc
      exact hCB (Option.some_injective _ hc.1)
    have h2 : ¬(C = A ∧ reverse_direction d = d) := by
      intro hc
      exact reverse_ne d hc.2
    rw [if_neg h1, if_neg h2,
      if_pos ⟨by rw [hC], by simpa using hCB, rfl⟩]
  · intro g A B C d hC hCB hB
    have hAp : ∃ relFrom, alook g.relations A = some relFrom := by
      unfold get_neighbor at hC
      rcases ha : alook g.relations A with _ | r
      · rw [ha] at hC; simp at hC
      · exact ⟨r, rfl⟩
    obtain ⟨relFrom, hA⟩ := hAp
    have hrow : relFrom.get d = some C := by
      rw [← get_neighbor_eq_row hA d]
      exact hC
    unfold add_edge
    rw [hA]
    simp only
    have hBn : (alook g.relations B).isNone = false := by
      rcases hx : alook g.relations B with _ | _
      · rw [hx] at hB; simp at hB
      · simp
    rw [hBn, if_neg (by simp), hrow]
    rw [if_pos (show ((some C).isSome && !false && decide (some B ≠ some C)) = true by
      simp
      intro hc
      exact hCB hc.symm)]
  · intro g g2 A B d ov hbi hcl hok hrev
    have hwf : ∀ C, get_neighbor g A d = some C → (alook g.relations C).isSome :=
      fun C hC => hcl A d C hC
    intro n e m hm
    rw [hchar g g2 A B d ov hok hwf n e] at hm
    rw [hchar g g2 A B d ov hok hwf m (reverse_direction e)]
    by_cases c1 : (some n = some B : Prop) ∧ e = reverse_direction d
    · rw [if_pos c1] at hm
      have hmA : A = m := Option.some_injective _ hm
      have hnB : B = n := (Option.some_injective _ c1.1).symm
      rw [← hmA, ← hnB, c1.2, reverse_reverse]
      have hx1 : ¬((some A = some B : Prop) ∧ d = reverse_direction d) := by
        intro hc
        exact reverse_ne d hc.2.symm
      rw [if_neg hx1, if_pos ⟨rfl, rfl⟩]
    · rw [if_neg c1] at hm
      by_cases c2 : n = A ∧ e = d
      · rw [if_pos c2] at hm
        have hmB : B = m := Option.some_injective _ hm
        rw [← hmB, c2.1, c2.2]
        rw [if_pos ⟨rfl, rfl⟩]
      · rw [if_neg c2] at hm
        by_cases c3 : (some n = get_neighbor g A d : Prop) ∧ some n ≠ some B ∧
            e = reverse_direction d
        · rw [if_pos c3] at hm
          exact absurd hm (by simp)
        · rw [if_neg c3] at hm
          have hgb := hbi n e m hm
          by_cases d1 : (some m = some B : Prop) ∧
              reverse_direction e = reverse_direction d
          · have hmB : m = B := Option.some_injective _ d1.1
            have hed : e = d := reverse_inj d1.2
            rw [hmB, hed] at hgb
            rcases hrev with hr | hr
            · exact absurd (hgb.symm.trans hr) (by simp)
            · have hnA : n = A := Option.some_injective _ (hgb.symm.trans hr)
              exact absurd ⟨hnA, hed⟩ c2
          · rw [if_neg d1]
            by_cases d2 : m = A ∧ reverse_direction e = d
            · have he : e = reverse_direction d := by
                rw [← d2.2, reverse_reverse]
              have hXn : get_neighbor g A d = some n := by
                have := hbi n e m hm
                rw [d2.1] at this
                rw [← d2.2]
                exact this
              have hnB : some n = some B := by
                by_contra habs
                exact c3 ⟨hXn.symm, habs, he⟩
              exact absurd ⟨hnB, he⟩ c1
            · rw [if_neg d2]
              by_cases d3 : (some m = get_neighbor g A d : Prop) ∧
                  some m ≠ some B ∧ reverse_direction e = reverse_direction d
              · have hed : e = d := reverse_inj d3.2.2
                have hAm : get_neighbor g A d = some m := d3.1.symm
                have h1 := hbi A d m hAm
                have h2 : get_neighbor g m (reverse_direction e) = some A := by
                  rw [hed]
                  exact h1
                have hnA : n = A := Option.some_injective _ (hgb.symm.trans h2)
                exact absurd ⟨hnA, hed⟩ c2
              · rw [if_neg d3]
                exact hgb

/-- Three-node test graph for the C1 witness: p, c, q unlinked. -/
def c1wit_g : DGraph :=
  add_node (add_node (add_node DGraph.empty
    "p" ⟨"p", "", "pending"⟩) "c" ⟨"c", "", "pending"⟩) "q" ⟨"q", "", "pending"⟩

/-- `c1wit_g` after `add_edge("p", DOWN, "c")`. -/
def c1wit_g2 : DGraph :=
  (add_edge c1wit_g "p" Direction.down (some "c") false).toOption.getD DGraph.empty

/-- `c1wit_g2` after the overwriting `add_edge("p", DOWN, "q", overwrite)`. -/
def c1wit_g3 : DGraph :=
  (add_edge c1wit_g2 "p" Direction.down (some "q") true).toOption.getD DGraph.empty

/-- C1 witness: the four parts of the amended statement at a concrete
three-node graph. -/
theorem c1_add_edge_bidirectional_semantics_witness :
    (get_neighbor c1wit_g2 "p" Direction.down = some "c" ∧
      get_neighbor c1wit_g2 "c" Direction.up = some "p") ∧
    get_neighbor c1wit_g3 "c" Direction.up = none ∧
    add_edge c1wit_g2 "p" Direction.down (some "q") false =
      .error (edgeConflictMsg "p" Direction.down (some "c")) ∧
    Bidir c1wit_g2 := by
  refine ⟨?_, ?_, ?_, ?_⟩
  · exact c1_add_edge_bidirectional_semantics.1 c1wit_g c1wit_g2 "p" "c"
      Direction.down false (by decide)
      (fun C hC => closed_of_closedB (by decide) "p" Direction.down C hC)
  · exact c1_add_edge_bidirectional_semantics.2.1 c1wit_g2 c1wit_g3 "p" "q" "c"
      Direction.down true (by decide) (by decide) (by decide) (by decide)
  · exact c1_add_edge_bidirectional_semantics.2.2.1 c1wit_g2 "p" "q" "c"
      Direction.down (by decide) (by decide) (by decide)
  · exact c1_add_edge_bidirectional_semantics.2.2.2 c1wit_g c1wit_g2 "p" "c"
      Direction.down false (bidir_of_bidirB (by decide))
      (closed_of_closedB (by decide)) (by decide) (Or.inl (by decide))

/-! ## Claim C3 -/

/-- Test graph: p —DOWN→ x —DOWN→ y. -/
def c3g : DGraph :=
  { relations := [("p", ⟨none, some "x", none, none⟩),
                  ("x", ⟨some "p", some "y", none, none⟩),
                  ("y", ⟨some "x", none, none, none⟩)],
    nodes := [("p", ⟨"P", "", "pending"⟩), ("x", ⟨"X", "", "working"⟩),
              ("y", ⟨"Y", "", "pending"⟩)] }

/-- C3 (code_bug).  `remove_subtree` holds the graph's non-reentrant
`threading.Lock` and then calls `get_descendants`, whose `get_neighbor`
reads acquire the same lock, so every call self-deadlocks and never
returns (first conjunct, over the lock-aware embedding).  The intended
behavior the claim describes does hold for the lock-elided semantics: on
the graph p→x→y, removing x returns exactly {x} ∪ descendants = {x, y},
and afterwards neither x nor y remains in the relations map or the
metadata map, while p survives with its DOWN edge cleared. -/
theorem c3_remove_subtree_deadlock_code_bug :
    (∀ g node_id, remove_subtreeL g node_id = none) ∧
    Except.map (fun r => r.1) (remove_subtree c3g "x") =
      .ok ("x" :: get_descendants c3g "x") ∧
    Except.map (fun r => r.1) (remove_subtree c3g "x") = .ok ["x", "y"] ∧
    Except.map (fun r =>
        (alook r.2.relations "x", alook r.2.relations "y",
         alook r.2.nodes "x", alook r.2.nodes "y",
         get_neighbor r.2 "p" Direction.down))
      (remove_subtree c3g "x") = .ok (none, none, none, none, none) := by
  refine ⟨remove_subtreeL_deadlock, by decide, by decide, by decide⟩

/-! ## Claim C2 -/

theorem add_node_relations_alook (g : DGraph) (c : String) (m : Meta) (x : String) :
    alook (add_node g c m).relations x =
      if x = c then some NodeRel.empty else alook g.relations x := by
  unfold add_node
  simp [alook_upsert]

theorem get_neighbor_add_node (g : DGraph) (c : String) (m : Meta)
    (x : String) (d : Direction) :
    get_neighbor (add_node g c m) x d = if x = c then none else get_neighbor g x d := by
  unfold get_neighbor
  rw [add_node_relations_alook]
  by_cases hx : x = c
  · cases d <;> simp [hx, NodeRel.empty, NodeRel.get]
  · simp [hx]

theorem edgeWrites_relations_isSome (g : DGraph) (existing : Option String)
    (A : String) (d : Direction) (to_id : Option String) (x : String) :
    (alook (edgeWrites g existing A d to_id).relations x).isSome =
      (alook g.relations x).isSome := by
  unfold edgeWrites
  rcases existing with _ | C
  · rcases to_id with _ | B <;> simp [relations_isSome_setSlot]
  · rcases to_id with _ | B
    · simp [relations_isSome_setSlot]
    · by_cases hBC : B = C <;> simp [hBC, relations_isSome_setSlot]

/-- One step of the `add_sub_tasks` loop: add a fresh node `c` and hang it
from `A` in direction `d` (DOWN from the parent for the first child, RIGHT
from the previous sibling for the rest).  The edge install succeeds, the
only changed slots are (c, reverse d) and (A, d), and `c` joins the node
set with every other direction `None`. -/
theorem addSub_step {g : DGraph} {A c : String} {m : Meta} {d : Direction}
    (hA : (alook g.relations A).isSome)
    (hAd : get_neighbor g A d = none)
    (hcA : c ≠ A) :
    ∃ g2, add_edge (add_node g c m) A d (some c) false = .ok g2 ∧
      (∀ x e, get_neighbor g2 x e =
        if x = c ∧ e = reverse_direction d then some A
        else if x = A ∧ e = d then some c
        else if x = c then none
        else get_neighbor g x e) ∧
      (∀ x, (alook g2.relations x).isSome = (x = c || (alook g.relations x).isSome)) := by
  have hAc : ¬A = c := fun h => hcA h.symm
  have hA1 : alook (add_node g c m).relations A = alook g.relations A := by
    rw [add_node_relations_alook]
    simp [hAc]
  have hc1 : alook (add_node g c m).relations c = some NodeRel.empty := by
    rw [add_node_relations_alook]
    simp
  have hAd1 : get_neighbor (add_node g c m) A d = none := by
    rw [get_neighbor_add_node]
    simp [hAc, hAd]
  rcases hrowg : alook g.relations A with _ | row
  · rw [hrowg] at hA
    simp at hA
  · have hrow1 : alook (add_node g c m).relations A = some row := by
      rw [hA1, hrowg]
    have hrowd : row.get d = none := by
      rw [← get_neighbor_eq_row hrow1 d]
      exact hAd1
    have hok : add_edge (add_node g c m) A d (some c) false =
        .ok (edgeWrites (add_node g c m) (row.get d) A d (some c)) := by
      unfold add_edge
      rw [hrow1]
      simp only
      rw [hc1]
      rw [if_neg (by simp)]
      rw [hrowd]
      rw [if_neg (by simp)]
    refine ⟨_, hok, ?_, ?_⟩
    · intro x e
      rw [get_neighbor_edgeWrites (add_node g c m) (row.get d) A d (some c)
        (by rw [hrow1]; simp)
        (by intro t ht; rw [(Option.some_injective _ ht).symm, hc1]; simp)
        (by intro cc hcc; rw [hrowd] at hcc; exact absurd hcc (by simp))]
      rw [hrowd, get_neighbor_add_node]
      have hdr : reverse_direction d ≠ d := reverse_ne d
      have hrd : d ≠ reverse_direction d := fun h => reverse_ne d h.symm
      by_cases hx : x = c <;> by_cases hxA : x = A <;>
        by_cases he1 : e = reverse_direction d <;> by_cases he2 : e = d <;>
        simp_all
    · intro x
      rw [edgeWrites_relations_isSome, add_node_relations_alook]
      by_cases hx : x = c <;> simp [hx]

/-- The RIGHT-chaining phase of `add_sub_tasks` starting from `prev`:
the loop succeeds, records every child with the branching parent, leaves
all slots other than `(prev, RIGHT)` and the new children untouched, and
gives every chained child an empty UP slot. -/
theorem addSubGo_right_chain (parent : String) (rest : List (String × Meta)) :
    ∀ (g : DGraph) (recd : List (String × Option String)) (prev : String),
    (alook g.relations prev).isSome →
    get_neighbor g prev Direction.right = none →
    (rest.map Prod.fst).Nodup →
    (∀ p ∈ rest, p.1 ≠ prev) →
    ∃ g2, addSubGo parent g recd (some prev) rest =
        .ok (g2, recd ++ rest.map (fun p => (p.1, some parent))) ∧
      (∀ x e, x ∉ rest.map Prod.fst → ¬(x = prev ∧ e = Direction.right) →
        get_neighbor g2 x e = get_neighbor g x e) ∧
      (∀ c, c ∈ rest.map Prod.fst → get_neighbor g2 c Direction.up = none) := by
  induction rest with
  | nil =>
    intro g recd prev _ _ _ _
    refine ⟨g, by simp [addSubGo], ?_, ?_⟩
    · intro x e _ _
      rfl
    · intro c hc
      simp at hc
  | cons cm rest ih =>
    intro g recd prev hprev hpr hnd hne
    obtain ⟨c, m⟩ := cm
    have hcp : c ≠ prev := hne (c, m) (by simp)
    obtain ⟨g20, hok, hchar, hpres⟩ :=
      addSub_step (g := g) (A := prev) (c := c) (m := m) (d := Direction.right)
        hprev hpr hcp
    have hnd2 := hnd
    rw [List.map_cons, List.nodup_cons] at hnd2
    have hndr : (rest.map Prod.fst).Nodup := hnd2.2
    have hcnotin : c ∉ rest.map Prod.fst := hnd2.1
    have hnec : ∀ p ∈ rest, p.1 ≠ c := by
      intro p hp hpc
      exact hcnotin (hpc ▸ List.mem_map_of_mem Prod.fst hp)
    have hcpres : (alook g20.relations c).isSome := by
      rw [hpres c]
      simp
    have hcright : get_neighbor g20 c Direction.right = none := by
      rw [hchar c Direction.right]
      simp [reverse_direction, hcp]
    obtain ⟨g2, hok2, hframe2, hups2⟩ :=
      ih g20 (recd ++ [(c, some parent)]) c hcpres hcright hndr hnec
    refine ⟨g2, ?_, ?_, ?_⟩
    · show (add_edge (add_node g c m) prev Direction.right (some c) false).bind
        (fun gx => addSubGo parent gx (recd ++ [(c, some parent)]) (some c) rest) = _
      rw [hok]
      show addSubGo parent g20 (recd ++ [(c, some parent)]) (some c) rest = _
      rw [hok2]
      simp
    · intro x e hx hxe
      have hxc : x ≠ c := by
        intro hc2
        exact hx (by simp [hc2])
      have hxr : x ∉ rest.map Prod.fst := by
        intro hc2
        exact hx (by simp [hc2])
      rw [hframe2 x e hxr (fun hc2 => hxc hc2.1)]
      rw [hchar x e]
      simp [hxc, hxe]
    · intro cx hcx
      simp at hcx
      rcases hcx with hcx | hcx
      · have hupright : ¬(cx = c ∧ Direction.up = Direction.right) := by
          intro hc2
          exact absurd hc2.2 (by simp)
        rw [hcx]
        rw [hframe2 c Direction.up hcnotin (fun hc2 => by simpa using hc2.2)]
        rw [hchar c Direction.up]
        simp [reverse_direction, hcp]
      · exact hups2 cx (by simpa using hcx)

theorem alook_const_map {β : Type} (l : List (String × β)) (v : Option String)
    (x : String) (hx : x ∈ l.map Prod.fst) :
    alook (l.map (fun q => (q.1, v))) x = some v := by
  induction l with
  | nil => simp at hx
  | cons p t ih =>
    by_cases hxp : x = p.1
    · simp [alook, hxp]
    · simp only [List.map_cons, List.mem_cons] at hx
      rcases hx with hx | hx
      · exact absurd hx hxp
      · simp [alook, hxp]
        exact ih hx

/-- C2 (counterexample).  `add_sub_tasks("p", [c1, c2])` records parent id
p for both children, but only c1 gets p as its UP neighbor: c2 is linked
by RIGHT from c1 and its UP slot stays `None`, so the recorded parent id
of c2 differs from its UP neighbor in the graph. -/
theorem c2_parent_id_up_neighbor_counterexample :
    Except.map (fun r => (alook r.2 "c2", get_neighbor r.1 "c2" Direction.up))
      (add_sub_tasks (add_node DGraph.empty "p" ⟨"P", "", "pending"⟩) "p"
        [("c1", ⟨"A", "", "pending"⟩), ("c2", ⟨"B", "", "pending"⟩)]) =
      .ok (some (some "p"), none) := by
  decide

/-- C2 (amended).  Every child created by `add_sub_tasks` is recorded with
parent id equal to the branching node, but only the FIRST child has the
branching node as UP neighbor; every later sibling is linked by RIGHT from
its predecessor and its UP neighbor stays `None` (the parent is reachable
only through the LEFT chain). -/
theorem c2_recorded_parent_vs_up_neighbor :
    ∀ (g : DGraph) (parent : String) (c0 : String × Meta)
      (rest : List (String × Meta)),
    (alook g.relations parent).isSome →
    get_neighbor g parent Direction.down = none →
    (((c0 :: rest).map Prod.fst).Nodup) →
    (∀ p ∈ c0 :: rest, p.1 ≠ parent) →
    Except.map (fun r => r.2) (add_sub_tasks g parent (c0 :: rest)) =
        .ok ((c0 :: rest).map (fun p => (p.1, some parent))) ∧
      (∀ p ∈ c0 :: rest,
        alook ((c0 :: rest).map (fun q => (q.1, some parent))) p.1 =
          some (some parent)) ∧
      Except.map (fun r => get_neighbor r.1 c0.1 Direction.up)
        (add_sub_tasks g parent (c0 :: rest)) = .ok (some parent) ∧
      (∀ p ∈ rest, Except.map (fun r => get_neighbor r.1 p.1 Direction.up)
        (add_sub_tasks g parent (c0 :: rest)) = .ok none) := by
  intro g parent c0 rest hpar hdown hnd hnp
  obtain ⟨c, m⟩ := c0
  have hcp : c ≠ parent := hnp (c, m) (by simp)
  obtain ⟨g20, hok0, hchar0, hpres0⟩ :=
    addSub_step (g := g) (A := parent) (c := c) (m := m) (d := Direction.down)
      hpar hdown hcp
  have hnd2 := hnd
  rw [List.map_cons, List.nodup_cons] at hnd2
  have hcpres : (alook g20.relations c).isSome := by
    rw [hpres0 c]
    simp
  have hcright : get_neighbor g20 c Direction.right = none := by
    rw [hchar0 c Direction.right]
    simp [reverse_direction, hcp]
  have hnec : ∀ p ∈ rest, p.1 ≠ c := by
    intro p hp hpc
    have hm : p.1 ∈ rest.map Prod.fst := List.mem_map_of_mem Prod.fst hp
    rw [hpc] at hm
    exact hnd2.1 hm
  obtain ⟨g2, hok2, hframe2, hups2⟩ :=
    addSubGo_right_chain parent rest g20 [(c, some parent)] c
      hcpres hcright hnd2.2 hnec
  have hrun : add_sub_tasks g parent ((c, m) :: rest) =
      .ok (g2, (c, some parent) :: rest.map (fun p => (p.1, some parent))) := by
    unfold add_sub_tasks
    rw [if_pos hpar]
    show (add_edge (add_node g c m) parent Direction.down (some c) false).bind
      (fun gx => addSubGo parent gx ([] ++ [(c, some parent)]) (some c) rest) = _
    rw [hok0]
    show addSubGo parent g20 ([] ++ [(c, some parent)]) (some c) rest = _
    rw [List.nil_append, hok2]
    simp
  refine ⟨?_, ?_, ?_, ?_⟩
  · rw [hrun]
    rfl
  · intro p hp
    exact alook_const_map ((c, m) :: rest) (some parent) p.1
      (List.mem_map_of_mem Prod.fst hp)
  · rw [hrun]
    have hup : get_neighbor g2 c Direction.up = some parent := by
      rw [hframe2 c Direction.up hnd2.1 (fun hc2 => by simpa using hc2.2)]
      rw [hchar0 c Direction.up]
      simp [reverse_direction]
    show Except.ok (get_neighbor g2 c Direction.up) = Except.ok (some parent)
    rw [hup]
  · intro p hp
    rw [hrun]
    have hup := hups2 p.1 (List.mem_map_of_mem Prod.fst hp)
    show Except.ok (get_neighbor g2 p.1 Direction.up) = Except.ok none
    rw [hup]

/-- Two fresh children under a registered parent, for the C2 witness. -/
def c2wit_g : DGraph := add_node DGraph.empty "p" ⟨"P", "", "pending"⟩

def c2wit_subs : List (String × Meta) :=
  [("c1", ⟨"A", "", "pending"⟩), ("c2", ⟨"B", "", "pending"⟩)]

/-- C2 witness: the amended statement at the two-child instance. -/
theorem c2_recorded_parent_vs_up_neighbor_witness :
    Except.map (fun r => r.2) (add_sub_tasks c2wit_g "p" c2wit_subs) =
      .ok [("c1", some "p"), ("c2", some "p")] ∧
    Except.map (fun r => get_neighbor r.1 "c1" Direction.up)
      (add_sub_tasks c2wit_g "p" c2wit_subs) = .ok (some "p") ∧
    Except.map (fun r => get_neighbor r.1 "c2" Direction.up)
      (add_sub_tasks c2wit_g "p" c2wit_subs) = .ok none := by
  have h := c2_recorded_parent_vs_up_neighbor c2wit_g "p"
    ("c1", ⟨"A", "", "pending"⟩) [("c2", ⟨"B", "", "pending"⟩)]
    (by decide) (by decide) (by decide) (by decide)
  refine ⟨?_, ?_, ?_⟩
  · have h1 := h.1
    simpa [c2wit_subs] using h1
  · have h1 := h.2.2.1
    simpa [c2wit_subs] using h1
  · have h1 := h.2.2.2 ("c2", ⟨"B", "", "pending"⟩) (by simp)
    simpa [c2wit_subs] using h1

/-! ## Claim C10 -/

/-- Task graph for C10: p —DOWN→ n1 —RIGHT→ n2. -/
def c10g : DGraph :=
  { relations := [("p", ⟨none, some "n1", none, none⟩),
                  ("n1", ⟨some "p", none, none, some "n2"⟩),
                  ("n2", ⟨none, none, some "n1", none⟩)],
    nodes := [("p", ⟨"P", "", "pending"⟩), ("n1", ⟨"A", "", "failed"⟩),
              ("n2", ⟨"B", "", "pending"⟩)] }

/-- Manager state owning `c10g` under task t. -/
def c10st : TMState :=
  { nodes := [("p", ⟨"t", none, "pending", false, "P"⟩),
              ("n1", ⟨"t", some "p", "failed", false, "A"⟩),
              ("n2", ⟨"t", some "p", "pending", false, "B"⟩)],
    trms := [("t", c10g)] }

/-- C10 (code_bug).  First conjunct, over the lock-aware embedding: the
real `restart_node` never reaches the sibling-edge insertion — it holds
`trms_lock` from the TRM lookup onward, and `register_node` ends in
`_sync_status_to_trm`, which re-acquires the same non-reentrant lock, so
the call deadlocks.  The remaining conjuncts settle the claimed behavior
on the lock-elided semantics: restarting n1, which has RIGHT neighbor n2,
makes the fresh `add_edge(n1, RIGHT, n9)` raise the conflict `ValueError`
which propagates out, and at that point n9 is already registered in the
manager's nodes map and present in the graph's relations and metadata
maps with all four directions `None` (not linked); restarting n2, which
has no RIGHT neighbor, returns the new id. -/
theorem c10_restart_node_not_atomic_code_bug :
    restart_nodeL c10st "n1" "n9" "" = none ∧
    (restart_node c10st "n1" "n9" "").2 =
      .error (edgeConflictMsg "n1" Direction.right (some "n2")) ∧
    alook (restart_node c10st "n1" "n9" "").1.nodes "n9" =
      some ⟨"t", some "p", "pending", false, "A"⟩ ∧
    Option.map (fun g => (alook g.relations "n9", (alook g.nodes "n9").isSome))
        (alook (restart_node c10st "n1" "n9" "").1.trms "t") =
      some (some NodeRel.empty, true) ∧
    (restart_node c10st "n2" "n9" "").2 = .ok (some "n9") := by
  refine ⟨by decide, by decide, by decide, by decide, by decide⟩

/-! ## Claim C9 -/

/-- One-node graph for the C9 counterexample. -/
def c9g : DGraph :=
  { relations := [("x", NodeRel.empty)],
    nodes := [("x", ⟨"X", "", "working"⟩)] }

/-- C9 (counterexample).  `_draw_graph` wraps its file write in no
handler: when the write fails during `update_node_status`, the `OSError`
escapes into the mutating operation (second component `some …`), even
though the status mutation itself has already been applied. -/
theorem c9_rendering_failure_escapes_counterexample :
    (trm_update_node_status c9g "x" "completed" false).2 =
      some "OSError: failed to write graph file" ∧
    alook (trm_update_node_status c9g "x" "completed" false).1.nodes "x" =
      some ⟨"X", "", "completed"⟩ := by
  refine ⟨by decide, by decide⟩

/-- C9 (amended).  The structural mutation of `update_node_status` is
applied regardless of the rendering outcome, but rendering is not
log-and-continue: the diagram write failure escapes as an exception into
the mutating operation — no exception is swallowed on the rendering
path. -/
theorem c9_rendering_error_escapes :
    ∀ (g : DGraph) (node_id status : String) (writeOk : Bool),
      (trm_update_node_status g node_id status writeOk).1 =
        update_node_metadata_status g node_id status ∧
      ((trm_update_node_status g node_id status writeOk).2 = none ↔
        writeOk = true) := by
  intro g node_id status w
  cases w <;> simp [trm_update_node_status, draw_graph]

/-! ## Claim C4 -/

theorem collectCompleted_range (rs : List TaskOut) :
    collectCompleted rs (List.range rs.length) = rs := by
  unfold collectCompleted
  induction rs with
  | nil => simp
  | cons r t ih =>
    rw [List.length_cons, List.range_succ_eq_map, List.filterMap_cons]
    simp only [List.getElem?_cons_zero, List.filterMap_map]
    show r :: List.filterMap (fun i => (r :: t)[Nat.succ i]?) (List.range t.length) = r :: t
    simp only [List.getElem?_cons_succ]
    rw [ih]

/-- Results of the two plan-ordered children for the C4 counterexample. -/
def c4r1 : TaskOut := ⟨some "one", "completed"⟩

def c4r2 : TaskOut := ⟨some "two", "completed"⟩

/-- C4 (counterexample).  With two children, the workers may complete in
order [1, 0] or [0, 1]; the aggregator labels and joins whatever order it
receives, so the two completion orders give different aggregates, and the
reversed completion order does not equal the plan-order (sub-task index)
concatenation the claim requires. -/
theorem c4_completion_order_counterexample :
    aggregate_results (collectCompleted [c4r1, c4r2] [1, 0]) ≠
      aggregate_results (collectCompleted [c4r1, c4r2] [0, 1]) ∧
    aggregate_results (collectCompleted [c4r1, c4r2] [1, 0]) ≠
      specAggregateByIndex [c4r1, c4r2] := by
  refine ⟨by decide, by decide⟩

/-- C4 (amended).  One child is passed through; with several children the
summaries are concatenated with positional labels in the order the
results were collected — the completion order of the sibling workers —
so the aggregate matches the spec's sub-task-index order exactly when the
children complete in plan order. -/
theorem c4_aggregate_in_completion_order :
    (∀ r : TaskOut, aggregate_results [r] = .ok r) ∧
    (∀ rs : List TaskOut,
      aggregate_results (collectCompleted rs (List.range rs.length)) =
        specAggregateByIndex rs) ∧
    (∀ (r1 r2 : TaskOut) (t : List TaskOut),
      aggregate_results (r1 :: r2 :: t) =
        .ok ⟨some (combineSummaries (aggSummaries (r1 :: r2 :: t))), "completed"⟩) := by
  refine ⟨fun r => rfl, ?_, fun r1 r2 t => rfl⟩
  intro rs
  rw [collectCompleted_range]
  cases rs with
  | nil => rfl
  | cons a t =>
    cases t with
    | nil => rfl
    | cons b t2 => rfl

/-! ## Claim C7 -/

theorem llmAttemptEvents_no_locks (oc : Nat → CallOutcome) (mr bd : Nat) :
    ∀ fuel attempt,
    LLMEvent.acquire ∉ llmAttemptEvents oc mr bd fuel attempt ∧
    LLMEvent.release ∉ llmAttemptEvents oc mr bd fuel attempt := by
  intro fuel
  induction fuel with
  | zero =>
    intro a
    simp [llmAttemptEvents]
  | succ f ih =>
    intro a
    unfold llmAttemptEvents
    rcases hoc : oc a with _ | _ | _ | _ <;>
      simp only [hoc] <;>
      constructor <;>
      intro hmem <;>
      simp only [List.mem_cons] at hmem
    · rcases hmem with h | h
      · exact absurd h (by simp)
      · simp at h
    · rcases hmem with h | h
      · exact absurd h (by simp)
      · simp at h
    · rcases hmem with h | h
      · exact absurd h (by simp)
      · revert h
        split
        · intro h
          simp only [List.mem_cons] at h
          rcases h with h | h
          · exact absurd h (by simp)
          · exact (ih (a + 1)).1 h
        · intro h
          simp at h
    · rcases hmem with h | h
      · exact absurd h (by simp)
      · revert h
        split
        · intro h
          simp only [List.mem_cons] at h
          rcases h with h | h
          · exact absurd h (by simp)
          · exact (ih (a + 1)).2 h
        · intro h
          simp at h
    · rcases hmem with h | h
      · exact absurd h (by simp)
      · revert h
        split
        · intro h
          simp only [List.mem_cons] at h
          rcases h with h | h
          · exact absurd h (by simp)
          · exact (ih (a + 1)).1 h
        · intro h
          simp at h
    · rcases hmem with h | h
      · exact absurd h (by simp)
      · revert h
        split
        · intro h
          simp only [List.mem_cons] at h
          rcases h with h | h
          · exact absurd h (by simp)
          · exact (ih (a + 1)).2 h
        · intro h
          simp at h
    · rcases hmem with h | h
      · exact absurd h (by simp)
      · simp at h
    · rcases hmem with h | h
      · exact absurd h (by simp)
      · simp at h

theorem postsGuarded_no_locks_append_release :
    ∀ (l : List LLMEvent) (d : Nat),
    LLMEvent.acquire ∉ l → LLMEvent.release ∉ l → 0 < d →
    postsGuarded (l ++ [LLMEvent.release]) d = true := by
  intro l
  induction l with
  | nil =>
    intro d _ _ _
    rfl
  | cons e t ih =>
    intro d ha hr hd
    cases e with
    | acquire => exact absurd (List.mem_cons_self _ _) ha
    | release => exact absurd (List.mem_cons_self _ _) hr
    | post =>
      show (decide (0 < d) && postsGuarded (t ++ [LLMEvent.release]) d) = true
      rw [ih d (fun h => ha (List.mem_cons_of_mem _ h))
        (fun h => hr (List.mem_cons_of_mem _ h)) hd]
      simp [hd]
    | sleepFor n =>
      exact ih d (fun h => ha (List.mem_cons_of_mem _ h))
        (fun h => hr (List.mem_cons_of_mem _ h)) hd

/-- C7 (amended).  Calls through `TaskNode._call_llm` hold the class-level
counting semaphore for every HTTP post they make; the Executor Loop's LLM
calls go through `MCPAgent._llm_next_command`, which performs its posts
without acquiring any semaphore, so the `max_llm_concurrent` cap does not
bound the Executor-Loop calls. -/
theorem c7_semaphore_guards_only_task_node_calls :
    (∀ (oc : Nat → CallOutcome) (mr bd : Nat),
      postsGuarded (call_llm_trace oc mr bd) 0 = true) ∧
    (∀ (oc : Nat → CallOutcome) (mr bd : Nat),
      LLMEvent.acquire ∉ llm_next_command_trace oc mr bd) ∧
    (∀ (oc : Nat → CallOutcome) (mr bd : Nat), 1 ≤ mr →
      LLMEvent.post ∈ llm_next_command_trace oc mr bd) := by
  refine ⟨?_, ?_, ?_⟩
  · intro oc mr bd
    show postsGuarded (llmAttemptEvents oc mr bd mr 0 ++ [LLMEvent.release]) 1 = true
    exact postsGuarded_no_locks_append_release _ 1
      (llmAttemptEvents_no_locks oc mr bd mr 0).1
      (llmAttemptEvents_no_locks oc mr bd mr 0).2 (by omega)
  · intro oc mr bd
    exact (llmAttemptEvents_no_locks oc mr bd mr 0).1
  · intro oc mr bd hmr
    unfold llm_next_command_trace
    cases mr with
    | zero => omega
    | succ k =>
      show LLMEvent.post ∈ llmAttemptEvents oc (k + 1) bd (k + 1) 0
      unfold llmAttemptEvents
      exact List.mem_cons_self _ _

/-- C7 (counterexample).  A successful Executor-Loop LLM call posts to
the endpoint yet never acquires the semaphore, so the call is not "made
while holding the process-wide counting semaphore". -/
theorem c7_executor_loop_unguarded_counterexample :
    LLMEvent.post ∈ llm_next_command_trace (fun _ => CallOutcome.success) 5 2 ∧
    LLMEvent.acquire ∉ llm_next_command_trace (fun _ => CallOutcome.success) 5 2 := by
  refine ⟨by decide, by decide⟩

/-- C7 witness: the amended statement at a concrete outcome oracle. -/
theorem c7_semaphore_guards_only_task_node_calls_witness :
    postsGuarded (call_llm_trace (fun _ => CallOutcome.rateLimited) 5 2) 0 = true ∧
    LLMEvent.acquire ∉ llm_next_command_trace (fun _ => CallOutcome.rateLimited) 5 2 ∧
    LLMEvent.post ∈ llm_next_command_trace (fun _ => CallOutcome.rateLimited) 5 2 := by
  have h := c7_semaphore_guards_only_task_node_calls
  exact ⟨h.1 _ 5 2, h.2.1 _ 5 2, h.2.2 _ 5 2 (by decide)⟩

/-! ## Claim C8 -/

theorem alook_split {α : Type} {l : List (String × α)} {k : String} {v : α}
    (h : alook l k = some v) :
    ∃ l1 l2, l = l1 ++ (k, v) :: l2 ∧ k ∉ l1.map Prod.fst := by
  induction l with
  | nil => simp [alook] at h
  | cons p t ih =>
    obtain ⟨pk, pv⟩ := p
    by_cases hk : k = pk
    · rw [alook_cons, if_pos hk] at h
      refine ⟨[], t, ?_, by simp⟩
      rw [← hk, Option.some_injective _ h.symm]
      simp
    · rw [alook_cons, if_neg hk] at h
      obtain ⟨l1, l2, he, hn⟩ := ih h
      refine ⟨(pk, pv) :: l1, l2, by simp [he], ?_⟩
      simp only [List.map_cons, List.mem_cons]
      intro hc
      rcases hc with hc | hc
      · exact hk hc
      · exact hn hc

theorem reconcileStep_preserves (st : RState) (nid2 : String) (nd2 : MNode)
    (x : String) (hx : x ≠ nid2) :
    alook (reconcileStep st nid2 nd2).nodes x = alook st.nodes x ∧
    (∀ t, ((alook (reconcileStep st nid2 nd2).trms t).bind fun T => alook T x) =
      ((alook st.trms t).bind fun T => alook T x)) ∧
    (reconcileStep st nid2 nd2).logs = st.logs := by
  unfold reconcileStep
  split
  · exact ⟨rfl, fun t => rfl, rfl⟩
  · split
    · exact ⟨rfl, fun t => rfl, rfl⟩
    · split
      · exact ⟨rfl, fun t => rfl, rfl⟩
      · split
        · refine ⟨?_, ?_, rfl⟩
          · show alook (updF st.nodes nid2 _) x = alook st.nodes x
            rw [alook_updF]
            simp [hx]
          · intro t
            split
            · show ((alook (updF st.trms nd2.taskId _) t).bind fun T => alook T x) = _
              rw [alook_updF]
              by_cases ht : t = nd2.taskId
              · rw [if_pos ht, ht]
                rcases htt : alook st.trms nd2.taskId with _ | T
                · rfl
                · show ((some (trmSetStatus T nid2 "completed")).bind fun T2 => alook T2 x) = _
                  show alook (trmSetStatus T nid2 "completed") x = alook T x
                  unfold trmSetStatus
                  rw [alook_updF]
                  simp [hx]
              · rw [if_neg ht]
            · rfl
        · exact ⟨rfl, fun t => rfl, rfl⟩

theorem reconcileFold_preserves (l : List (String × MNode)) :
    ∀ (st : RState) (x : String), x ∉ l.map Prod.fst →
    alook (l.foldl (fun s p => reconcileStep s p.1 p.2) st).nodes x =
      alook st.nodes x ∧
    (∀ t, ((alook (l.foldl (fun s p => reconcileStep s p.1 p.2) st).trms t).bind
        fun T => alook T x) =
      ((alook st.trms t).bind fun T => alook T x)) ∧
    (l.foldl (fun s p => reconcileStep s p.1 p.2) st).logs = st.logs := by
  induction l with
  | nil =>
    intro st x _
    exact ⟨rfl, fun t => rfl, rfl⟩
  | cons p t ih =>
    intro st x hx
    have hxp : x ≠ p.1 := by
      intro hc
      exact hx (by simp [hc])
    have hxt : x ∉ t.map Prod.fst := by
      intro hc
      exact hx (by simp [hc])
    obtain ⟨s1, s2, s3⟩ := reconcileStep_preserves st p.1 p.2 x hxp
    obtain ⟨f1, f2, f3⟩ := ih (reconcileStep st p.1 p.2) x hxt
    refine ⟨?_, ?_, ?_⟩
    · rw [List.foldl_cons, f1, s1]
    · intro t2
      rw [List.foldl_cons, f2 t2, s2 t2]
    · rw [List.foldl_cons, f3, s3]

/-- C8 (confirmed).  For every node that is non-terminal at the start of a
reconcile tick and whose log file contains the DONE: marker, at the end of
the tick the node's status in the manager's authoritative `nodes` map is
completed with the completion timestamp set, and the task's TRM carries
the same completed status for it. -/
theorem c8_reconcile_done_marks_completed
    (st : RState) (nid : String) (nd : MNode) (L : String)
    (hmem : alook st.nodes nid = some nd)
    (hnodup : (st.nodes.map Prod.fst).Nodup)
    (hnt : terminalStatuses.contains nd.status = false)
    (hlog : alook st.logs nid = some L)
    (hdone : pyContains L "DONE:" = true)
    (htrm : ((alook st.trms nd.taskId).bind fun T => alook T nid).isSome) :
    alook (reconcileTick st).nodes nid =
      some { nd with status := "completed", completedAt := true } ∧
    ((alook (reconcileTick st).trms nd.taskId).bind fun T => alook T nid) =
      some "completed" := by
  have hLne : L.isEmpty = false := by
    rcases hL : L.isEmpty with _ | _
    · rfl
    · exfalso
      have hL2 : L = "" := (String.isEmpty_iff L).mp hL
      rw [hL2] at hdone
      exact absurd hdone (by decide)
  obtain ⟨l1, l2, hsplit, hnotin1⟩ := alook_split hmem
  have hnotin2 : nid ∉ l2.map Prod.fst := by
    rw [hsplit] at hnodup
    simp only [List.map_append, List.map_cons] at hnodup
    have := List.Nodup.not_mem ((List.nodup_append.mp hnodup).2.1)
    exact this
  unfold reconcileTick
  rw [hsplit, List.foldl_append, List.foldl_cons]
  obtain ⟨p1, p2, p3⟩ := reconcileFold_preserves l1 st nid hnotin1
  set st1 := l1.foldl (fun s p => reconcileStep s p.1 p.2) st with hst1
  have hlog1 : alook st1.logs nid = some L := by
    rw [p3, hlog]
  have htrm1 : ((alook st1.trms nd.taskId).bind fun T => alook T nid).isSome := by
    rw [p2 nd.taskId]
    exact htrm
  obtain ⟨T1, hT1⟩ : ∃ T1, alook st1.trms nd.taskId = some T1 := by
    rcases hT : alook st1.trms nd.taskId with _ | T1
    · rw [hT] at htrm1
      simp at htrm1
    · exact ⟨T1, rfl⟩
  have hT1nid : (alook T1 nid).isSome := by
    rw [hT1] at htrm1
    exact htrm1
  have hstep : reconcileStep st1 nid nd =
      ⟨updF st1.nodes nid (fun m => { m with status := "completed", completedAt := true }),
       updF st1.trms nd.taskId (fun t => trmSetStatus t nid "completed"),
       st1.logs⟩ := by
    unfold reconcileStep
    rw [if_neg (by rw [hnt]; simp), hlog1]
    simp only [hLne, Bool.false_eq_true, if_false, hdone, if_true, hT1]
  rw [hstep]
  set st2 : RState :=
    ⟨updF st1.nodes nid (fun m => { m with status := "completed", completedAt := true }),
     updF st1.trms nd.taskId (fun t => trmSetStatus t nid "completed"),
     st1.logs⟩ with hst2
  obtain ⟨q1, q2, _⟩ := reconcileFold_preserves l2 st2 nid hnotin2
  constructor
  · rw [q1]
    show alook (updF st1.nodes nid _) nid = _
    rw [alook_updF, if_pos rfl, p1, hmem]
    rfl
  · rw [q2 nd.taskId]
    show ((alook (updF st1.trms nd.taskId _) nd.taskId).bind fun T => alook T nid) = _
    rw [alook_updF, if_pos rfl, hT1]
    show alook (trmSetStatus T1 nid "completed") nid = _
    unfold trmSetStatus
    rw [alook_updF, if_pos rfl]
    rcases hTv : alook T1 nid with _ | v
    · rw [hTv] at hT1nid
      simp at hT1nid
    · rfl

/-- Concrete manager state for the C8 witness. -/
def c8st : RState :=
  { nodes := [("n1", ⟨"t", "working", false⟩), ("n2", ⟨"t", "pending", false⟩)],
    trms := [("t", [("n1", "working"), ("n2", "pending")])],
    logs := [("n1", "=== TERMINAL OUTPUT ===\nDONE: scan finished\n")] }

/-- C8 witness: the tick completes the stuck node n1 and syncs its TRM. -/
theorem c8_reconcile_done_marks_completed_witness :
    alook (reconcileTick c8st).nodes "n1" = some ⟨"t", "completed", true⟩ ∧
    ((alook (reconcileTick c8st).trms "t").bind fun T => alook T "n1") =
      some "completed" := by
  have h := c8_reconcile_done_marks_completed c8st "n1" ⟨"t", "working", false⟩
    "=== TERMINAL OUTPUT ===\nDONE: scan finished\n"
    (by decide) (by decide) (by decide) (by decide) (by decide) (by decide)
  exact ⟨h.1, h.2⟩

/-! ## Claim C5 -/

theorem mcpLoop_lastIter_le (cmds outs : Nat → String) (eT cT : Nat) :
    ∀ (fuel i : Nat) (acc : List String) (ec cc : Nat),
    (mcpLoop cmds outs eT cT fuel i acc ec cc).lastIter ≤ i + fuel - 1 := by
  intro fuel
  induction fuel with
  | zero =>
    intro i acc ec cc
    show i - 1 ≤ i + 0 - 1
    omega
  | succ f ih =>
    intro i acc ec cc
    unfold mcpLoop
    by_cases hD : pyStartsWith (cmds i) "DONE:" = true
    · simp only [hD, if_true]
      show i ≤ i + (f + 1) - 1
      omega
    · simp only [hD, Bool.false_eq_true, if_false]
      by_cases hC : is_comment_only (cmds i) = true
      · simp only [hC, if_true]
        by_cases hth : cT ≤ cc + 1
        · rw [if_pos hth]
          show i ≤ i + (f + 1) - 1
          omega
        · rw [if_neg hth]
          have := ih (i + 1) (acc ++ [commentFeedbackLine (cmds i)]) ec (cc + 1)
          omega
      · simp only [hC, Bool.false_eq_true, if_false]
        by_cases hec : eT ≤ (if pyLen (pyStrip (outs i)) < 10 then ec + 1 else 0)
        · rw [if_pos hec]
          have := ih (i + 1)
            ((acc ++ [termOut (cmds i) (outs i)]) ++ [emptyNudge eT]) 0 0
          omega
        · rw [if_neg hec]
          have := ih (i + 1) (acc ++ [termOut (cmds i) (outs i)])
            (if pyLen (pyStrip (outs i)) < 10 then ec + 1 else 0) 0
          omega

theorem mcpLoop_done_mem (cmds outs : Nat → String) (eT cT : Nat) :
    ∀ (fuel i : Nat) (acc : List String) (ec cc : Nat),
    (mcpLoop cmds outs eT cT fuel i acc ec cc).exitKind = .doneExit →
    doneMsg (cmds (mcpLoop cmds outs eT cT fuel i acc ec cc).lastIter) ∈
        (mcpLoop cmds outs eT cT fuel i acc ec cc).out ∧
      pyStartsWith (cmds (mcpLoop cmds outs eT cT fuel i acc ec cc).lastIter)
        "DONE:" = true := by
  intro fuel
  induction fuel with
  | zero =>
    intro i acc ec cc h
    exact absurd h (by simp [mcpLoop])
  | succ f ih =>
    intro i acc ec cc
    unfold mcpLoop
    by_cases hD : pyStartsWith (cmds i) "DONE:" = true
    · simp only [hD, if_true]
      intro _
      refine ⟨by simp, ?_⟩
      simp [hD]
    · simp only [hD, Bool.false_eq_true, if_false]
      by_cases hC : is_comment_only (cmds i) = true
      · simp only [hC, if_true]
        by_cases hth : cT ≤ cc + 1
        · rw [if_pos hth]
          intro h
          exact absurd h (by simp)
        · rw [if_neg hth]
          exact ih (i + 1) (acc ++ [commentFeedbackLine (cmds i)]) ec (cc + 1)
      · simp only [hC, Bool.false_eq_true, if_false]
        by_cases hec : eT ≤ (if pyLen (pyStrip (outs i)) < 10 then ec + 1 else 0)
        · rw [if_pos hec]
          exact ih (i + 1)
            ((acc ++ [termOut (cmds i) (outs i)]) ++ [emptyNudge eT]) 0 0
        · rw [if_neg hec]
          exact ih (i + 1) (acc ++ [termOut (cmds i) (outs i)])
            (if pyLen (pyStrip (outs i)) < 10 then ec + 1 else 0) 0

/-- C5 (amended).  A run whose exit command starts with DONE: has the
completion footer in its transcript and exits within the budget; but
`mcp_iteration_limits` is incremented (and the iteration-limit footer
appended) exactly when the exit value of `iteration` equals
`max_iterations - 1` — which also covers a run that terminates with DONE:
on the final iteration, not only runs that exhaust the budget without
terminating. -/
theorem c5_done_footer_and_iteration_limit
    (cmds outs : Nat → String) (maxIter eT cT : Nat) (res : MCPResult)
    (hrun : execute_task cmds outs maxIter eT cT = some res) :
    (res.exitKind = .doneExit →
      doneMsg (cmds res.lastIter) ∈ res.output ∧
      pyStartsWith (cmds res.lastIter) "DONE:" = true ∧
      res.lastIter < maxIter) ∧
    (res.iterLimitHit = true ↔ res.lastIter = maxIter - 1) ∧
    (res.iterLimitHit = true → iterLimitMsg maxIter ∈ res.output) := by
  unfold execute_task at hrun
  by_cases h0 : maxIter = 0
  · rw [if_pos h0] at hrun
    exact absurd hrun (by simp)
  · rw [if_neg h0] at hrun
    simp only at hrun
    set L := mcpLoop cmds outs eT cT maxIter 0 [] 0 0 with hL
    have hle : L.lastIter ≤ maxIter - 1 := by
      have hb := mcpLoop_lastIter_le cmds outs eT cT maxIter 0 [] 0 0
      rw [← hL] at hb
      omega
    have hres : res = ⟨if decide (maxIter - 1 ≤ L.lastIter) = true then
        L.out ++ [iterLimitMsg maxIter] else L.out,
      String.intercalate "\n" (if decide (maxIter - 1 ≤ L.lastIter) = true then
        L.out ++ [iterLimitMsg maxIter] else L.out),
      L.lastIter, L.exitKind,
      decide (maxIter - 1 ≤ L.lastIter)⟩ := by
      exact (Option.some_injective _ hrun).symm
    refine ⟨?_, ?_, ?_⟩
    · intro hdone
      rw [hres] at hdone ⊢
      simp only at hdone ⊢
      obtain ⟨hmem, hstart⟩ :=
        mcpLoop_done_mem cmds outs eT cT maxIter 0 [] 0 0 hdone
      refine ⟨?_, hstart, by omega⟩
      by_cases hhit : decide (maxIter - 1 ≤ L.lastIter) = true
      · simp only [hhit, if_true]
        exact List.mem_append_left _ hmem
      · simp only [hhit, if_false]
        exact hmem
    · rw [hres]
      simp only [decide_eq_true_eq]
      omega
    · intro hhit
      rw [hres] at hhit ⊢
      simp only at hhit ⊢
      rw [hhit]
      simp

/-- Oracle: one shell command then DONE on the final iteration. -/
def c5cmds : Nat → String := fun i => if i = 0 then "ls" else "DONE: ok"

def c5outs : Nat → String := fun _ => "0123456789abc"

/-- C5 (counterexample).  With an iteration budget of 2, the model sends a
command and then DONE: on the last iteration: the run terminates with the
completion footer, yet the final `iteration >= max_iterations - 1` check
still fires, so `mcp_iteration_limits` is incremented and the timeout
footer appended in a run that did terminate within the budget —
contradicting "incremented only in runs that exceed the iteration budget
without terminating". -/
theorem c5_done_final_iteration_counterexample :
    Option.map (fun r => (r.exitKind, r.iterLimitHit))
      (execute_task c5cmds c5outs 2 5 5) = some (ExitKind.doneExit, true) ∧
    Option.map (fun r => r.output) (execute_task c5cmds c5outs 2 5 5) =
      some [termOut "ls" "0123456789abc", doneMsg "DONE: ok", iterLimitMsg 2] := by
  refine ⟨by decide, by decide⟩

/-- Result of a run that sends DONE immediately with budget 3. -/
def c5wres : MCPResult :=
  (execute_task (fun _ => "DONE: fine") c5outs 3 5 5).getD ⟨[], "", 0, .exhausted, false⟩

/-- C5 witness: the amended statement at a run that finishes with DONE on
its first iteration. -/
theorem c5_done_footer_and_iteration_limit_witness :
    doneMsg "DONE: fine" ∈ c5wres.output ∧
    (c5wres.iterLimitHit = true ↔ c5wres.lastIter = 2) := by
  have h := c5_done_footer_and_iteration_limit (fun _ => "DONE: fine") c5outs
    3 5 5 c5wres (by decide)
  exact ⟨(h.1 (by decide)).1, h.2.1⟩

/-! ## Claim C6 -/

/-- C6 (amended).  Only two of the three claimed check-points exist: the
entry of `execute` raises impossible for a cancelled node, and the entry
of every `direct_execute` attempt does the same; the Executor Loop itself
never consults the cancelled flag — it behaves exactly like the
spec-reference loop whose flag is never set.  A flag set after an
attempt's entry check therefore takes effect only at the next check-point,
not within one Executor-Loop iteration. -/
theorem c6_two_cancellation_checkpoints :
    (∀ (planTasks : Nat) (br dr : Except TaskErr String),
      executeModel true planTasks br dr = .error (.impossible "Node was cancelled")) ∧
    (∀ (cAt : Nat → Bool) (raw : Nat → String) (crit : Nat → Bool),
      cAt 1 = true →
      direct_execute cAt raw crit = .error (.impossible "Cancelled")) ∧
    (∀ (cmds outs : Nat → String) (eT cT fuel i : Nat) (acc : List String)
      (ec cc : Nat),
      mcpLoopSpecCancel (fun _ => false) cmds outs eT cT fuel i acc ec cc =
        mcpLoop cmds outs eT cT fuel i acc ec cc) := by
  refine ⟨?_, ?_, ?_⟩
  · intro planTasks br dr
    rfl
  · intro cAt raw crit hc
    unfold direct_execute directExecuteGo
    rw [hc]
    simp
  · intro cmds outs eT cT fuel
    induction fuel with
    | zero =>
      intro i acc ec cc
      rfl
    | succ f ih =>
      intro i acc ec cc
      unfold mcpLoopSpecCancel mcpLoop
      simp only [Bool.false_eq_true, if_false]
      by_cases hD : pyStartsWith (cmds i) "DONE:" = true
      · simp only [hD, if_true]
      · simp only [hD, Bool.false_eq_true, if_false]
        by_cases hC : is_comment_only (cmds i) = true
        · simp only [hC, if_true]
          by_cases hth : cT ≤ cc + 1
          · simp only [if_pos hth]
          · simp only [if_neg hth]
            exact ih (i + 1) (acc ++ [commentFeedbackLine (cmds i)]) ec (cc + 1)
        · simp only [hC, Bool.false_eq_true, if_false]
          by_cases hec : eT ≤ (if pyLen (pyStrip (outs i)) < 10 then ec + 1 else 0)
          · simp only [if_pos hec]
            exact ih (i + 1)
              ((acc ++ [termOut (cmds i) (outs i)]) ++ [emptyNudge eT]) 0 0
          · simp only [if_neg hec]
            exact ih (i + 1) (acc ++ [termOut (cmds i) (outs i)])
              (if pyLen (pyStrip (outs i)) < 10 then ec + 1 else 0) 0

def c6cmds : Nat → String := fun _ => "ls"

def c6outs : Nat → String := fun _ => "0123456789abc"

/-- C6 (counterexample).  With the cancelled flag set from the start, a
loop that verified the flag at the start of each iteration would stop at
once with no output (spec-reference loop); the source loop runs all four
budgeted iterations and executes four commands — so further
Executor-Loop iterations do run for a cancelled node, and it does not
stop within one iteration of the flag being set. -/
theorem c6_no_loop_cancellation_check_counterexample :
    (mcpLoopSpecCancel (fun _ => true) c6cmds c6outs 5 5 4 0 [] 0 0).out = [] ∧
    (mcpLoopSpecCancel (fun _ => true) c6cmds c6outs 5 5 4 0 [] 0 0).exitKind =
      ExitKind.cancelledStop ∧
    (mcpLoop c6cmds c6outs 5 5 4 0 [] 0 0).out.length = 4 ∧
    (mcpLoop c6cmds c6outs 5 5 4 0 [] 0 0).exitKind = ExitKind.exhausted := by
  refine ⟨by decide, by decide, by decide, by decide⟩

/-- C6 witness: the amended statement at concrete flags and oracles. -/
theorem c6_two_cancellation_checkpoints_witness :
    executeModel true 1 (.ok "branch") (.ok "direct") =
      .error (.impossible "Node was cancelled") ∧
    direct_execute (fun _ => true) (fun _ => "raw") (fun _ => false) =
      .error (.impossible "Cancelled") ∧
    mcpLoopSpecCancel (fun _ => false) c6cmds c6outs 5 5 2 0 [] 0 0 =
      mcpLoop c6cmds c6outs 5 5 2 0 [] 0 0 := by
  have h := c6_two_cancellation_checkpoints
  exact ⟨h.1 1 (.ok "branch") (.ok "direct"),
    h.2.1 (fun _ => true) (fun _ => "raw") (fun _ => false) (by decide),
    h.2.2 c6cmds c6outs 5 5 2 0 [] 0 0⟩

end BlackMagic
